import Mathlib

/-!
Monsti: content fields and node identity.

A shallow embedding of `api/service/node.go` (the `Field` variants with their
`Load`/`Dump` persistence, display and form binding, `Node.InitFields`,
`Node.PathToID`, `Node.Name`) and of the module log and the module start loop
of `core/monsti-daemon/monsti-daemon.go`, together with the parts of Go's
`strings`, `time`, `path` and `bytes` packages that this code calls.

Conventions.

* A Go `string` is a Lean `String`; functions that walk a string work on its
  character list.  Every byte the code inspects (`/`, digits, `-`, `:`, `T`,
  `Z`, `+`, `.`) is ASCII, so walking characters and walking bytes agree.
* A Go call either returns or panics: `Res α` keeps the two apart.  A returned
  Go `error` is an `Option String` (`none` is the `nil` error).
* A method with a pointer receiver takes the receiver's state and returns the
  new state.
-/

namespace Monsti

/-! ## Go runtime values -/

/-- Outcome of a Go call: a normal return, or a panic that unwinds the caller. -/
inductive Res (α : Type) where
  | ok (a : α)
  | panic (msg : String)
deriving DecidableEq, Repr

/-- A dynamically typed Go value (`interface{}`), as handed to `Field.Load`:
the untyped nil, a boolean, a number, or a string. -/
inductive GoValue where
  | nil
  | bool (b : Bool)
  | num (i : Int)
  | str (s : String)
deriving DecidableEq, Repr

/-- Whether the dynamic type of the value is `string`. -/
def GoValue.isString : GoValue → Bool
  | .str _ => true
  | _ => false

/-! ## `strings.Replace` -/

/-- Replacement loop of `strings.Replace` for a non-empty `old`: scanning from
the left, each non-overlapping occurrence of `old` is replaced by `new` while
the budget `lim` (`none`: unlimited) lasts.  `skip` counts the characters of a
matched occurrence that are still to be dropped. -/
def replaceChars (old new : List Char) : Option Nat → Nat → List Char → List Char
  | _, _, [] => []
  | lim, skip + 1, _ :: cs => replaceChars old new lim skip cs
  | lim, 0, c :: cs =>
    if lim ≠ some 0 ∧ old.isPrefixOf (c :: cs) then
      new ++ replaceChars old new (lim.map (· - 1)) (old.length - 1) cs
    else
      c :: replaceChars old new lim 0 cs

/-- Go's `strings.Replace(s, old, new, n)` for a non-empty `old`; a negative `n`
means no limit on the number of replacements. -/
def strings.Replace (s old new : String) (n : Int) : String :=
  if old = new ∨ n = 0 then s
  else ⟨replaceChars old.data new.data (if n < 0 then none else some n.toNat) 0 s.data⟩

/-! ## Go's `time` package: `Time`, `Format` and `Parse` for the RFC 3339 layout -/

/-- A `time.Time` as `Format` reads it: the civil date and the clock in the
time's own zone, the nanosecond within the second, and the zone offset in
seconds east of UTC. -/
structure Time where
  year : Int
  month : Nat
  day : Nat
  hour : Nat
  minute : Nat
  second : Nat
  nsec : Nat
  offset : Int
deriving DecidableEq, Repr

/-- Leap years, as in `time.isLeap`. -/
def isLeap (year : Int) : Bool :=
  year % 4 = 0 ∧ (year % 100 ≠ 0 ∨ year % 400 = 0)

/-- Number of days of a month (`time.daysIn`); zero outside January..December. -/
def daysIn (month : Nat) (year : Int) : Nat :=
  if month = 2 then (if isLeap year then 29 else 28)
  else if month = 4 ∨ month = 6 ∨ month = 9 ∨ month = 11 then 30
  else if 1 ≤ month ∧ month ≤ 12 then 31
  else 0

/-- The civil readings that a `time.Time` can have. -/
def Time.valid (t : Time) : Prop :=
  1 ≤ t.month ∧ t.month ≤ 12 ∧ 1 ≤ t.day ∧ t.day ≤ daysIn t.month t.year ∧
  t.hour < 24 ∧ t.minute < 60 ∧ t.second < 60 ∧ t.nsec < 1000000000

instance (t : Time) : Decidable t.valid := by
  unfold Time.valid; infer_instance

/-- Days from 1970-01-01 to the given civil date of the proleptic Gregorian
calendar. -/
def daysSinceEpoch (year : Int) (month day : Nat) : Int :=
  let y : Int := if month ≤ 2 then year - 1 else year
  let era : Int := y / 400
  let yoe : Int := y - era * 400
  let mp : Int := if month ≤ 2 then (month : Int) + 9 else (month : Int) - 3
  let doy : Int := (153 * mp + 2) / 5 + (day : Int) - 1
  let doe : Int := yoe * 365 + yoe / 4 - yoe / 100 + doy
  era * 146097 + doe - 719468

/-- The instant of a time at second precision (`Time.Unix`): seconds elapsed
since 1970-01-01T00:00:00Z. -/
def Time.Unix (t : Time) : Int :=
  daysSinceEpoch t.year t.month t.day * 86400
    + (t.hour : Int) * 3600 + (t.minute : Int) * 60 + (t.second : Int) - t.offset

/-- The timestamps that the RFC 3339 layout can carry: a year of four digits
and a zone offset of whole minutes, less than a day. -/
def Time.representable (t : Time) : Prop :=
  0 ≤ t.year ∧ t.year ≤ 9999 ∧ t.offset % 60 = 0 ∧ -86400 < t.offset ∧ t.offset < 86400

instance (t : Time) : Decidable t.representable := by
  unfold Time.representable; infer_instance

/-- The ASCII digit of a number below ten. -/
def digitChar (d : Nat) : Char := Char.ofNat (48 + d)

/-- Decimal digits of `u`, most significant first, put in front of `acc`; the
fuel is the size of the digit buffer. -/
def decimalDigits : Nat → Nat → List Char → List Char
  | 0, _, acc => acc
  | fuel + 1, u, acc =>
    if u < 10 then digitChar u :: acc
    else decimalDigits fuel (u / 10) (digitChar (u % 10) :: acc)

/-- The bytes `time.appendInt` appends: a minus sign for a negative `x`, then
the decimal digits of its magnitude, zero-padded on the left to `width`. -/
def appendInt (x : Int) (width : Nat) : List Char :=
  let ds := decimalDigits 20 x.natAbs []
  (if x < 0 then ['-'] else []) ++ (List.replicate (width - ds.length) '0' ++ ds)

/-- The layout element `Z07:00`: `Z` for offset zero, otherwise sign, hours, a
colon and minutes; the offset is first cut to whole minutes, toward zero. -/
def formatZone (offset : Int) : List Char :=
  if offset = 0 then ['Z']
  else
    let zone : Int := offset.tdiv 60
    let sign : Char := if zone < 0 then '-' else '+'
    let z : Nat := zone.natAbs
    sign :: (appendInt ((z / 60 : Nat) : Int) 2 ++ ':' :: appendInt ((z % 60 : Nat) : Int) 2)

/-- The result of `t.Format(time.RFC3339)`, layout `2006-01-02T15:04:05Z07:00`. -/
def Time.FormatRFC3339 (t : Time) : String :=
  ⟨appendInt t.year 4 ++ '-' :: (appendInt t.month 2 ++ '-' :: (appendInt t.day 2 ++
    'T' :: (appendInt t.hour 2 ++ ':' :: (appendInt t.minute 2 ++ ':' ::
      (appendInt t.second 2 ++ formatZone t.offset)))))⟩

/-- ASCII digit test (`time.isDigit` at one position). -/
def isDigit (c : Char) : Bool := decide ('0' ≤ c) && decide (c ≤ '9')

/-- Value of an ASCII digit. -/
def digitVal (c : Char) : Nat := c.toNat - 48

/-- The helper `time.getnum`: a one- or two-digit number at the head of `s`;
with `fixed`, two digits are required. -/
def getnum (s : List Char) (fixed : Bool) : Option (Nat × List Char) :=
  match s with
  | [] => none
  | c0 :: rest =>
    if isDigit c0 then
      match rest with
      | [] => if fixed then none else some (digitVal c0, rest)
      | c1 :: rest1 =>
        if isDigit c1 then some (digitVal c0 * 10 + digitVal c1, rest1)
        else if fixed then none else some (digitVal c0, rest)
    else none

/-- The layout element `2006`: exactly four digits. -/
def getYear (s : List Char) : Option (Nat × List Char) :=
  match s with
  | a :: b :: c :: d :: rest =>
    if isDigit a && isDigit b && isDigit c && isDigit d then
      some (((digitVal a * 10 + digitVal b) * 10 + digitVal c) * 10 + digitVal d, rest)
    else none
  | _ => none

/-- A literal byte of the layout (`time.skip` for a one-byte prefix). -/
def skipByte (c : Char) (s : List Char) : Option (List Char) :=
  match s with
  | [] => none
  | x :: rest => if x = c then some rest else none

/-- Value of a digit string read as a decimal number. -/
def digitsValue (ds : List Char) : Nat :=
  ds.foldl (fun acc c => acc * 10 + digitVal c) 0

/-- A fractional second in the input where the layout has none: a comma or
period followed by digits.  All the digits are consumed, the first nine give
the nanoseconds (`time.parseNanoseconds`). -/
def parseFraction (s : List Char) : Nat × List Char :=
  match s with
  | sep :: c :: rest =>
    if (sep = '.' ∨ sep = ',') ∧ isDigit c = true then
      let used := ((c :: rest).takeWhile isDigit).take 9
      (digitsValue used * 10 ^ (9 - used.length), (c :: rest).dropWhile isDigit)
    else (0, s)
  | _ => (0, s)

/-- The layout element `Z07:00` on input: `Z`, or a sign, two digits, a colon
and two digits; hours above 24 and minutes above 60 are out of range.  The
result is the offset in seconds. -/
def parseZone (s : List Char) : Option (Int × List Char) :=
  match s with
  | [] => none
  | z :: _ =>
    if z = 'Z' then some (0, s.tail)
    else
      match s with
      | sign :: h0 :: h1 :: colon :: m0 :: m1 :: rest =>
        if colon ≠ ':' then none
        else
          match getnum [h0, h1] true, getnum [m0, m1] true with
          | some (hr, _), some (mm, _) =>
            if hr > 24 ∨ mm > 60 then none
            else if sign = '+' then some ((((hr * 60 + mm) * 60 : Nat) : Int), rest)
            else if sign = '-' then some (-(((hr * 60 + mm) * 60 : Nat) : Int), rest)
            else none
          | _, _ => none
      | _ => none

/-- The call `time.Parse(time.RFC3339, value)`; `none` stands for a returned
parse error (its text is not modelled).  The layout elements are read in order,
each range check as in `time.Parse`, the day of the month is validated against
the month at the end, and no input may be left over. -/
def time.ParseRFC3339 (value : String) : Option Time :=
  match getYear value.data with
  | none => none
  | some (year, v1) =>
  match (skipByte '-' v1).bind (fun v => getnum v true) with
  | none => none
  | some (month, v2) =>
  if month = 0 ∨ 12 < month then none else
  match (skipByte '-' v2).bind (fun v => getnum v true) with
  | none => none
  | some (day, v3) =>
  match (skipByte 'T' v3).bind (fun v => getnum v false) with
  | none => none
  | some (hour, v4) =>
  if 24 ≤ hour then none else
  match (skipByte ':' v4).bind (fun v => getnum v true) with
  | none => none
  | some (minute, v5) =>
  if 60 ≤ minute then none else
  match (skipByte ':' v5).bind (fun v => getnum v true) with
  | none => none
  | some (second, v6) =>
  if 60 ≤ second then none else
  match parseZone (parseFraction v6).2 with
  | none => none
  | some (offset, v7) =>
  if v7 ≠ [] then none
  else if day < 1 ∨ day > daysIn month (year : Int) then none
  else some ⟨(year : Int), month, day, hour, minute, second, (parseFraction v6).1, offset⟩

/-! ## Field variants -/

/-- TextField is a basic unicode text field (`type TextField string`). -/
structure TextField where
  s : String
deriving DecidableEq, Repr

/-- HTMLField is a text area containing HTML code (`type HTMLField string`). -/
structure HTMLField where
  s : String
deriving DecidableEq, Repr

/-- The declaration `type FileField string`. -/
structure FileField where
  s : String
deriving DecidableEq, Repr

/-- The struct `DateTimeField`: a pointer to a time, `none` being the nil
pointer. -/
structure DateTimeField where
  Time : Option Time
deriving DecidableEq, Repr

/-- What a `Load` call leaves behind when it returns: the receiver's new state
and the returned error. -/
abbrev Loaded (σ : Type) := Res (σ × Option String)

/-- The method `(*TextField).Load`: the type assertion `in.(string)` panics on
any other dynamic type. -/
def TextField.Load (_t : TextField) (v : GoValue) : Loaded TextField :=
  match v with
  | .str s => .ok (⟨s⟩, none)
  | _ => .panic "interface conversion: interface {} is not string"

/-- The method `TextField.Dump`. -/
def TextField.Dump (t : TextField) : GoValue := .str t.s

/-- The method `(*HTMLField).Load`: the type assertion `in.(string)` panics on
any other dynamic type. -/
def HTMLField.Load (_t : HTMLField) (v : GoValue) : Loaded HTMLField :=
  match v with
  | .str s => .ok (⟨s⟩, none)
  | _ => .panic "interface conversion: interface {} is not string"

/-- The method `HTMLField.Dump`. -/
def HTMLField.Dump (t : HTMLField) : GoValue := .str t.s

/-- The method `(*FileField).Load`: the body is commented out, the receiver is
left alone and nil is returned. -/
def FileField.Load (t : FileField) (_v : GoValue) : Loaded FileField :=
  .ok (t, none)

/-- The method `FileField.Dump`. -/
def FileField.Dump (_t : FileField) : GoValue := .str ""

/-- The method `(*DateTimeField).Load`. -/
def DateTimeField.Load (t : DateTimeField) (v : GoValue) : Loaded DateTimeField :=
  match v with
  | .str date =>
    if date = "" then .ok (⟨none⟩, none)
    else
      match time.ParseRFC3339 date with
      | none => .ok (t, some "Could not parse the date value")
      | some val => .ok (⟨some val⟩, none)
  | _ => .ok (t, some "Data is not string")

/-- The method `DateTimeField.Dump`. -/
def DateTimeField.Dump (t : DateTimeField) : GoValue :=
  match t.Time with
  | none => .str ""
  | some val => .str val.FormatRFC3339

/-- The interface `Field` with its four implementations. -/
inductive Field where
  | text (t : TextField)
  | html (t : HTMLField)
  | file (t : FileField)
  | dateTime (t : DateTimeField)
deriving DecidableEq, Repr

/-- Dynamic dispatch of `Field.Load`. -/
def Field.Load (f : Field) (v : GoValue) : Loaded Field :=
  match f with
  | .text t =>
    match t.Load v with
    | .ok (t1, e) => .ok (.text t1, e)
    | .panic m => .panic m
  | .html t =>
    match t.Load v with
    | .ok (t1, e) => .ok (.html t1, e)
    | .panic m => .panic m
  | .file t =>
    match t.Load v with
    | .ok (t1, e) => .ok (.file t1, e)
    | .panic m => .panic m
  | .dateTime t =>
    match t.Load v with
    | .ok (t1, e) => .ok (.dateTime t1, e)
    | .panic m => .panic m

/-- Dynamic dispatch of `Field.Dump`. -/
def Field.Dump : Field → GoValue
  | .text t => t.Dump
  | .html t => t.Dump
  | .file t => t.Dump
  | .dateTime t => t.Dump

/-! ## Node types and nodes -/

/-- Modelled from the spec: the field descriptor `NodeField` of a node type,
declared outside `node.go`: an id, a type tag (`Type`, here `Type_`), and a
display name per locale. -/
structure NodeField where
  Id : String
  Type_ : String
  Name : List (String × String)
deriving DecidableEq, Repr

/-- Modelled from the spec: the schema `NodeType`, declared outside `node.go`:
the ordered sequence of field descriptors. -/
structure NodeType where
  Fields : List NodeField
deriving DecidableEq, Repr

/-- A Go `map[string]V` as an association list with distinct keys. -/
abbrev GoMap (V : Type) := List (String × V)

/-- The assignment `m[k] = v`. -/
def GoMap.set {V : Type} (m : GoMap V) (k : String) (v : V) : GoMap V :=
  (k, v) :: m.filter (fun e => e.1 ≠ k)

/-- The lookup `m[k]`; `none` when the key is absent. -/
def GoMap.get {V : Type} (m : GoMap V) (k : String) : Option V :=
  (m.find? (fun e => e.1 = k)).map (fun e => e.2)

/-- The keys of a map. -/
def GoMap.keys {V : Type} (m : GoMap V) : List String := m.map (fun e => e.1)

/-- The struct `Node`; its field `Type` (here `Type_`) is a pointer and may be
nil. -/
structure Node where
  Path : String
  Type_ : Option NodeType
  Order : Int
  Hide : Bool
  Fields : GoMap Field
deriving DecidableEq, Repr

/-- The `switch field.Type` of `InitFields`: a fresh zero value of the variant
named by the tag, a panic for any other tag. -/
def newField (tag : String) : Res Field :=
  if tag = "DateTime" then .ok (.dateTime ⟨none⟩)
  else if tag = "File" then .ok (.file ⟨""⟩)
  else if tag = "Text" then .ok (.text ⟨""⟩)
  else if tag = "HTMLArea" then .ok (.html ⟨""⟩)
  else .panic ("Unknown field type " ++ tag)

/-- The loop of `InitFields` over the descriptors, threading the map. -/
def initLoop : List NodeField → GoMap Field → Res (GoMap Field)
  | [], m => .ok m
  | field :: rest, m =>
    match newField field.Type_ with
    | .panic msg => .panic msg
    | .ok val => initLoop rest (m.set field.Id val)

/-- The method `(*Node).InitFields`: the node with its new `Fields`, or the
panic that stopped it. -/
def Node.InitFields (n : Node) : Res Node :=
  match n.Type_ with
  | none => .panic "invalid memory address or nil pointer dereference"
  | some ty =>
    match initLoop ty.Fields [] with
    | .panic msg => .panic msg
    | .ok fields => .ok { n with Fields := fields }

/-- The method `Node.PathToID`. -/
def Node.PathToID (n : Node) : Res String :=
  if n.Path.length = 0 then .panic "Can't calculate ID of node with unset path."
  else .ok ("node-" ++ strings.Replace n.Path "/" "__" (-1))

/-- The type tags that `InitFields` knows. -/
def knownTags : List String := ["DateTime", "File", "Text", "HTMLArea"]

/-- The claim's reading of the identifier: every `/` of the path becomes `__`,
every other character stays. -/
def slashesToUnderscores (path : String) : String :=
  ⟨path.data.flatMap (fun c => if c = '/' then ['_', '_'] else [c])⟩

/-! ## Display -/

/-- The type of the standard library's method `time.Time.String`, which the
date-time field calls and which is taken as given. -/
abbrev TimeStringer : Type := Time → String


/-- What `RenderHTML` hands to the template, by dynamic type: a `TextField`
value, a `template.HTML` (markup the template trusts and does not escape), or a
plain `string`. -/
inductive Rendered where
  | textField (t : TextField)
  | templateHTML (s : String)
  | string (s : String)
deriving DecidableEq, Repr

/-- Whether the dynamic type of the rendered value is `template.HTML`. -/
def Rendered.isTrusted : Rendered → Bool
  | .templateHTML _ => true
  | _ => false

/-- The method `TextField.RenderHTML`: the field itself. -/
def TextField.RenderHTML (t : TextField) : Rendered := .textField t

/-- The method `HTMLField.RenderHTML`. -/
def HTMLField.RenderHTML (t : HTMLField) : Rendered := .templateHTML t.s

/-- The method `FileField.RenderHTML`. -/
def FileField.RenderHTML (_t : FileField) : Rendered := .string ""

/-- The method `DateTimeField.RenderHTML`; `timeString` is the standard
library's `time.Time.String`. -/
def DateTimeField.RenderHTML (timeString : TimeStringer) (t : DateTimeField) : Rendered :=
  match t.Time with
  | some val => .string (timeString val)
  | none => .string ""

/-- Dynamic dispatch of `Field.RenderHTML`. -/
def Field.RenderHTML (timeString : TimeStringer) : Field → Rendered
  | .text t => t.RenderHTML
  | .html t => t.RenderHTML
  | .file t => t.RenderHTML
  | .dateTime t => t.RenderHTML timeString

/-! ## Form binding -/

/-- Modelled from the spec: the data map `util.NestedMap`, declared outside
`node.go`: presentation values keyed by dotted paths. -/
abbrev NestedMap := GoMap GoValue

/-- Modelled from the spec: `NestedMap.Set`, the value stored under a dotted
path. -/
def NestedMap.Set (data : NestedMap) (path : String) (v : GoValue) : NestedMap :=
  GoMap.set data path v

/-- Modelled from the spec: `NestedMap.Get`, the value under a dotted path, nil
when there is none. -/
def NestedMap.Get (data : NestedMap) (path : String) : GoValue :=
  (GoMap.get data path).getD .nil

/-- Modelled from the spec: the validators of the form package that the fields
use; `Required` carries its message. -/
inductive form.Validator where
  | Required (msg : String)
deriving DecidableEq, Repr

/-- Modelled from the spec: the widgets of the form package that the fields
use: the rich-text editor and the file upload. -/
inductive form.Widget where
  | AlohaEditor
  | FileWidget
deriving DecidableEq, Repr

/-- Modelled from the spec: the form-field descriptor `form.Field`, in the
order of the positional literals of `node.go`: path into the nested data,
label, default display value, optional validator, optional widget. -/
structure form.Field where
  Path : String
  Label : String
  Default : String
  Validator : Option form.Validator
  Widget : Option form.Widget
deriving DecidableEq, Repr

/-- The lookup `field.Name[locale]`: the empty string for a missing locale. -/
def NodeField.localName (field : NodeField) (locale : String) : String :=
  (GoMap.get field.Name locale).getD ""

/-- The method `TextField.ToFormField`; `G` is the translation function that
`gettext.DefaultLocales.Use` returns for the locale.  The result is the
extended descriptor list and the updated data map. -/
def TextField.ToFormField (G : String → String) (t : TextField)
    (fields : List form.Field) (data : NestedMap) (field : NodeField) (locale : String) :
    List form.Field × NestedMap :=
  (fields ++ [⟨"Fields." ++ field.Id, field.localName locale, "",
      some (.Required (G "Required.")), none⟩],
    NestedMap.Set data field.Id (.str t.s))

/-- The method `(*TextField).FromFormField`; the type assertion panics when the
stored value is not a string. -/
def TextField.FromFormField (_t : TextField) (data : NestedMap) (field : NodeField) :
    Res TextField :=
  match NestedMap.Get data field.Id with
  | .str s => .ok ⟨s⟩
  | _ => .panic "interface conversion: interface {} is not string"

/-- The method `HTMLField.ToFormField`. -/
def HTMLField.ToFormField (G : String → String) (t : HTMLField)
    (fields : List form.Field) (data : NestedMap) (field : NodeField) (locale : String) :
    List form.Field × NestedMap :=
  (fields ++ [⟨"Fields." ++ field.Id, field.localName locale, "",
      some (.Required (G "Required.")), some .AlohaEditor⟩],
    NestedMap.Set data field.Id (.str t.s))

/-- The method `(*HTMLField).FromFormField`. -/
def HTMLField.FromFormField (_t : HTMLField) (data : NestedMap) (field : NodeField) :
    Res HTMLField :=
  match NestedMap.Get data field.Id with
  | .str s => .ok ⟨s⟩
  | _ => .panic "interface conversion: interface {} is not string"

/-- The method `FileField.ToFormField`. -/
def FileField.ToFormField (_t : FileField)
    (fields : List form.Field) (data : NestedMap) (field : NodeField) (locale : String) :
    List form.Field × NestedMap :=
  (fields ++ [⟨"Fields." ++ field.Id, field.localName locale, "", none, some .FileWidget⟩],
    NestedMap.Set data field.Id (.str ""))

/-- The method `(*FileField).FromFormField`. -/
def FileField.FromFormField (_t : FileField) (data : NestedMap) (field : NodeField) :
    Res FileField :=
  match NestedMap.Get data field.Id with
  | .str s => .ok ⟨s⟩
  | _ => .panic "interface conversion: interface {} is not string"

/-- The result of `t.Format("2.1.2006")`: day and month without padding, the
year on four digits. -/
def Time.FormatDate (t : Time) : String :=
  ⟨appendInt t.day 0 ++ '.' :: (appendInt t.month 0 ++ '.' :: appendInt t.year 4)⟩

/-- The result of `t.Format("15:04")`. -/
def Time.FormatClock (t : Time) : String :=
  ⟨appendInt t.hour 2 ++ ':' :: appendInt t.minute 2⟩

/-- The zero `time.Time`: January 1, year 1, 00:00:00 UTC. -/
def zeroTime : Time := ⟨1, 1, 1, 0, 0, 0, 0, 0⟩

/-- The call `time.Parse("2.1.2006T15:04", value)`; `none` stands for a returned
parse error.  Day, month and hour take one or two digits, the year four, the
minute two; the layout has no zone, so the time is read in UTC. -/
def time.ParseDateClock (value : String) : Option Time :=
  match getnum value.data false with
  | none => none
  | some (day, v1) =>
  match (skipByte '.' v1).bind (fun v => getnum v false) with
  | none => none
  | some (month, v2) =>
  if month = 0 ∨ 12 < month then none else
  match (skipByte '.' v2).bind getYear with
  | none => none
  | some (year, v3) =>
  match (skipByte 'T' v3).bind (fun v => getnum v false) with
  | none => none
  | some (hour, v4) =>
  if 24 ≤ hour then none else
  match (skipByte ':' v4).bind (fun v => getnum v true) with
  | none => none
  | some (minute, v5) =>
  if 60 ≤ minute then none
  else if v5 ≠ [] then none
  else if day < 1 ∨ day > daysIn month (year : Int) then none
  else some ⟨(year : Int), month, day, hour, minute, 0, 0, 0⟩

/-- The method `DateTimeField.ToFormField`. -/
def DateTimeField.ToFormField (G : String → String) (t : DateTimeField)
    (fields : List form.Field) (data : NestedMap) (field : NodeField) (locale : String) :
    List form.Field × NestedMap :=
  let data1 : NestedMap :=
    match t.Time with
    | some val =>
      NestedMap.Set (NestedMap.Set data (field.Id ++ ".Date") (.str val.FormatDate))
        (field.Id ++ ".Time") (.str val.FormatClock)
    | none =>
      NestedMap.Set (NestedMap.Set data (field.Id ++ ".Date") (.str "waz nil"))
        (field.Id ++ ".Time") (.str "waz nil")
  ((fields ++ [⟨"Fields." ++ field.Id ++ ".Date", field.localName locale ++ "Date", "",
      some (.Required (G "Required.")), none⟩])
    ++ [⟨"Fields." ++ field.Id ++ ".Time", field.localName locale ++ "Time", "",
      some (.Required (G "Required.")), none⟩],
    data1)

/-- The method `(*DateTimeField).FromFormField`: the parse error is dropped, and
on an error the zero time is stored. -/
def DateTimeField.FromFormField (_t : DateTimeField) (data : NestedMap) (field : NodeField) :
    Res DateTimeField :=
  match NestedMap.Get data (field.Id ++ ".Date") with
  | .str timeDate =>
    match NestedMap.Get data (field.Id ++ ".Time") with
    | .str timeTime =>
      .ok ⟨some ((time.ParseDateClock (timeDate ++ "T" ++ timeTime)).getD zeroTime)⟩
    | _ => .panic "interface conversion: interface {} is not string"
  | _ => .panic "interface conversion: interface {} is not string"

/-- Dynamic dispatch of `Field.ToFormField`. -/
def Field.ToFormField (G : String → String) (f : Field)
    (fields : List form.Field) (data : NestedMap) (field : NodeField) (locale : String) :
    List form.Field × NestedMap :=
  match f with
  | .text t => t.ToFormField G fields data field locale
  | .html t => t.ToFormField G fields data field locale
  | .file t => t.ToFormField fields data field locale
  | .dateTime t => t.ToFormField G fields data field locale

/-- Dynamic dispatch of `Field.FromFormField`. -/
def Field.FromFormField (f : Field) (data : NestedMap) (field : NodeField) : Res Field :=
  match f with
  | .text t =>
    match t.FromFormField data field with
    | .ok t1 => .ok (.text t1)
    | .panic m => .panic m
  | .html t =>
    match t.FromFormField data field with
    | .ok t1 => .ok (.html t1)
    | .panic m => .panic m
  | .file t =>
    match t.FromFormField data field with
    | .ok t1 => .ok (.file t1)
    | .panic m => .panic m
  | .dateTime t =>
    match t.FromFormField data field with
    | .ok t1 => .ok (.dateTime t1)
    | .panic m => .panic m

/-! ## Raw string form -/

/-- The method `TextField.String`. -/
def TextField.String (t : TextField) : Res String := .ok t.s

/-- The method `HTMLField.String`. -/
def HTMLField.String (t : HTMLField) : Res String := .ok t.s

/-- The method `FileField.String`. -/
def FileField.String (_t : FileField) : Res String := .ok ""

/-- The method `DateTimeField.String`: `t.Time.String()` with no nil check; the
value method `time.Time.String` (here `timeString`) called through a nil
pointer panics. -/
def DateTimeField.String (timeString : TimeStringer) (t : DateTimeField) : Res String :=
  match t.Time with
  | some val => .ok (timeString val)
  | none => .panic "invalid memory address or nil pointer dereference"

/-- Dynamic dispatch of `Field.String`. -/
def Field.String (timeString : TimeStringer) : Field → Res String
  | .text t => t.String
  | .html t => t.String
  | .file t => t.String
  | .dateTime t => t.String timeString

/-! ## Node names: `path.Base` -/

/-- The helper `lastSlash` of Go's `path` package: the index of the last `/`,
scanning down from the end, or -1 when there is none. -/
def lastSlash (s : List Char) : Int :=
  (s.length : Int) - 1 - ((s.reverse.takeWhile (fun c => c != '/')).length : Int)

/-- Go's `path.Base`: `.` for the empty path; otherwise trailing slashes are
stripped, what follows the last remaining slash is kept, and `/` is returned
when nothing is left. -/
def path.Base (p : String) : String :=
  if p = "" then "."
  else
    let stripped := (p.data.reverse.dropWhile (fun c => c == '/')).reverse
    let i := lastSlash stripped
    let elem := if i ≥ 0 then stripped.drop (i + 1).toNat else stripped
    if elem = [] then "/" else ⟨elem⟩

/-- The method `Node.Name`. -/
def Node.Name (n : Node) : String :=
  let base := path.Base n.Path
  if base = "." ∨ base = "/" then "" else base

/-- The element `e` is the last slash-separated element of `p`, trailing
slashes ignored: `e` is non-empty and has no `/`, only slashes follow it, and
it starts the path or follows a `/`. -/
def IsLastElement (p e : List Char) : Prop :=
  e ≠ [] ∧ ¬ '/' ∈ e ∧
    ∃ pre trail, p = pre ++ (e ++ trail) ∧ (∀ c ∈ trail, c = '/') ∧
      (pre = [] ∨ pre.getLast? = some '/')

/-! ## The daemon: module log and module start -/

/-- Go's `bytes.SplitAfter(p, sep)` for a one-byte separator: the pieces of
`p`, each ending right after a separator, the last one being what follows the
last separator (possibly empty).  A byte slice is a list of characters, one
per byte. -/
def splitAfter (sep : Char) : List Char → List (List Char)
  | [] => [[]]
  | c :: cs =>
    if c = sep then [c] :: splitAfter sep cs
    else
      match splitAfter sep cs with
      | [] => [[c]]
      | part :: parts => (c :: part) :: parts

/-- The struct `moduleLog`, a writer tagged with the module name (`Type`, here
`Type_`); its `Log` is the daemon's one logger, whose output is the list of
messages printed so far. -/
structure moduleLog where
  Type_ : String
deriving DecidableEq, Repr

/-- The messages that one `moduleLog.Write(p)` prints: for every non-empty
piece of `p`, the operands of `s.Log.Print(s.Type, ": ", string(part))` put
together (all are strings, so no blanks are added). -/
def moduleLog.entries (s : moduleLog) (p : List Char) : List String :=
  ((splitAfter '\n' p).filter (fun part => decide (part.length > 0))).map
    (fun part => s.Type_ ++ ": " ++ String.mk part)

/-- The method `moduleLog.Write`: the logger output after the call, the byte
count returned and the error returned. -/
def moduleLog.Write (s : moduleLog) (log : List String) (p : List Char) :
    List String × Nat × Option String :=
  (log ++ s.entries p, p.length, none)

/-- Successive `Write` calls with the given chunks: the logger output at the
end. -/
def moduleLog.WriteAll (s : moduleLog) (log : List String) : List (List Char) → List String
  | [] => log
  | p :: rest => s.WriteAll (s.Write log p).1 rest

/-- The struct `exec.Cmd` as far as `main` fills it: the program, the argument
vector (the program name first) and the writer for standard error. -/
structure exec.Cmd where
  Path : String
  Args : List String
  Stderr : Option moduleLog
deriving DecidableEq, Repr

/-- Go's `exec.Command(name, arg...)`. -/
def exec.Command (name : String) (arg : List String) : exec.Cmd :=
  ⟨name, name :: arg, none⟩

/-- The loop `Start modules` of `main`: for each configured module, in order,
the logger gets `Starting module <name>` and the command
`monsti-<name> <cfgPath>`, its standard error set to a `moduleLog` of that
module, is handed to a goroutine that runs it.  The result is the logger
output and the commands handed over so far. -/
def startModules (cfgPath : String) :
    List String → List String × List exec.Cmd → List String × List exec.Cmd
  | [], st => st
  | module :: rest, (log, started) =>
    let executable := "monsti-" ++ module
    let cmd := exec.Command executable [cfgPath]
    let cmd1 : exec.Cmd := { cmd with Stderr := some ⟨module⟩ }
    startModules cfgPath rest (log ++ ["Starting module " ++ module ++ "\n"], started ++ [cmd1])

/-- The timestamps that the form layouts `2.1.2006` and `15:04` carry in full:
a year of four digits, no seconds or nanoseconds, and the zone UTC. -/
def Time.wholeMinuteUTC (t : Time) : Prop :=
  0 ≤ t.year ∧ t.year ≤ 9999 ∧ t.second = 0 ∧ t.nsec = 0 ∧ t.offset = 0

instance (t : Time) : Decidable t.wholeMinuteUTC := by
  unfold Time.wholeMinuteUTC; infer_instance

/-! ## Node identity -/

theorem replaceChars_slash (new cs : List Char) :
    replaceChars ['/'] new none 0 cs
      = cs.flatMap (fun c => if c = '/' then new else [c]) := by
  induction cs with
  | nil => simp [replaceChars]
  | cons c cs ih =>
    by_cases hc : c = '/'
    · subst hc
      simp [replaceChars, ih]
    · have hc2 : ¬ ('/' = c) := fun h => hc h.symm
      simp [replaceChars, ih, hc, hc2, List.isPrefixOf]

theorem Replace_slash (path : String) :
    strings.Replace path "/" "__" (-1) = slashesToUnderscores path := by
  have h : ¬ (("/" : String) = "__" ∨ (-1 : Int) = 0) := by decide
  simp only [strings.Replace, h, if_false, slashesToUnderscores]
  exact congrArg String.mk (replaceChars_slash ['_', '_'] path.data)

theorem path_length_zero (path : String) : path.length = 0 ↔ path = "" := by
  cases path with
  | mk cs => cases cs <;> simp [String.length, String.ext_iff]

theorem PathToID_of_nonempty (n : Node) (h : n.Path ≠ "") :
    n.PathToID = .ok ("node-" ++ slashesToUnderscores n.Path) := by
  have hl : ¬ n.Path.length = 0 := fun hl => h ((path_length_zero _).1 hl)
  simp [Node.PathToID, hl, Replace_slash]

/-- C1: for a node with a non-empty path, `PathToID` returns `node-` followed by
the path with every `/` replaced by `__` and all other characters unchanged;
the node with path `/foo/bar` gets `node-__foo__bar`; and nodes with the same
path get the same identifier, whatever their other fields. -/
theorem PathToID_contract (n : Node) (h : n.Path ≠ "") :
    n.PathToID = .ok ("node-" ++ slashesToUnderscores n.Path)
    ∧ (∀ (ty : Option NodeType) (order : Int) (hide : Bool) (fields : GoMap Field),
        Node.PathToID ⟨"/foo/bar", ty, order, hide, fields⟩ = .ok "node-__foo__bar")
    ∧ (∀ m : Node, m.Path = n.Path → m.PathToID = n.PathToID) := by
  refine ⟨PathToID_of_nonempty n h, ?_, ?_⟩
  · intro ty order hide fields
    have hp : (Node.mk "/foo/bar" ty order hide fields).Path ≠ "" := by
      show ("/foo/bar" : String) ≠ ""
      decide
    rw [PathToID_of_nonempty _ hp]
    show Res.ok ("node-" ++ slashesToUnderscores "/foo/bar") = Res.ok "node-__foo__bar"
    decide
  · intro m hm
    simp [Node.PathToID, hm]

theorem PathToID_contract_witness :
    (Node.mk "/a" none 3 true []).Path ≠ ""
    ∧ Node.PathToID ⟨"/a", none, 3, true, []⟩ = .ok ("node-" ++ slashesToUnderscores "/a")
    ∧ (∀ (ty : Option NodeType) (order : Int) (hide : Bool) (fields : GoMap Field),
        Node.PathToID ⟨"/foo/bar", ty, order, hide, fields⟩ = .ok "node-__foo__bar")
    ∧ (∀ m : Node, m.Path = "/a" → m.PathToID = Node.PathToID ⟨"/a", none, 3, true, []⟩) :=
  ⟨by decide, PathToID_contract ⟨"/a", none, 3, true, []⟩ (by decide)⟩

theorem slashes_flatMap_injective (a b : List Char)
    (ha : ¬ '_' ∈ a) (hb : ¬ '_' ∈ b)
    (h : a.flatMap (fun c => if c = '/' then ['_', '_'] else [c])
        = b.flatMap (fun c => if c = '/' then ['_', '_'] else [c])) : a = b := by
  induction a generalizing b with
  | nil =>
    cases b with
    | nil => rfl
    | cons d ds =>
      by_cases hd : d = '/' <;> simp [hd] at h
  | cons c cs ih =>
    have hc0 : ¬ c = '_' := fun e => ha (by simp [e])
    have hcs : ¬ '_' ∈ cs := fun e => ha (by simp [e])
    cases b with
    | nil =>
      by_cases hc : c = '/' <;> simp [hc] at h
    | cons d ds =>
      have hd0 : ¬ d = '_' := fun e => hb (by simp [e])
      have hds : ¬ '_' ∈ ds := fun e => hb (by simp [e])
      by_cases hc : c = '/' <;> by_cases hd : d = '/'
      · simp [hc, hd] at h
        rw [hc, hd, ih ds hcs hds h]
      · simp [hc, hd] at h
        exact absurd h.1.symm hd0
      · simp [hc, hd] at h
        exact absurd h.1 hc0
      · simp [hc, hd] at h
        rw [h.1, ih ds hcs hds h.2]

/-- C2, refuted as stated: the paths `/` and `__` are non-empty and different,
yet both nodes get the identifier `node-__`. -/
theorem PathToID_not_injective :
    ¬ (∀ n m : Node, n.Path ≠ "" → m.Path ≠ "" → n.Path ≠ m.Path →
        n.PathToID ≠ m.PathToID) := by
  intro h
  exact h ⟨"/", none, 0, false, []⟩ ⟨"__", none, 0, false, []⟩
    (by decide) (by decide) (by decide) (by decide)

/-- C2, amended: on non-empty paths that contain no underscore `PathToID` is
injective: different paths get different identifiers. -/
theorem PathToID_injective_no_underscore (n m : Node)
    (hn : n.Path ≠ "") (hm : m.Path ≠ "")
    (hnu : ¬ '_' ∈ n.Path.data) (hmu : ¬ '_' ∈ m.Path.data)
    (hne : n.Path ≠ m.Path) : n.PathToID ≠ m.PathToID := by
  intro h
  rw [PathToID_of_nonempty n hn, PathToID_of_nonempty m hm] at h
  have h1 : "node-" ++ slashesToUnderscores n.Path
      = "node-" ++ slashesToUnderscores m.Path := by
    injection h
  have h2 := congrArg String.data h1
  simp only [String.data_append, List.append_cancel_left_eq, slashesToUnderscores] at h2
  exact hne (String.ext (slashes_flatMap_injective _ _ hnu hmu h2))

theorem PathToID_injective_no_underscore_witness :
    (Node.mk "/a" none 0 false []).Path ≠ ""
    ∧ (Node.mk "/b/c" none 0 false []).Path ≠ ""
    ∧ Node.PathToID ⟨"/a", none, 0, false, []⟩ ≠ Node.PathToID ⟨"/b/c", none, 0, false, []⟩ :=
  ⟨by decide, by decide,
    PathToID_injective_no_underscore ⟨"/a", none, 0, false, []⟩ ⟨"/b/c", none, 0, false, []⟩
      (by decide) (by decide) (by decide) (by decide) (by decide)⟩

/-- C3: `PathToID` panics exactly when the path is the empty string, and
returns an identifier exactly when the path is non-empty. -/
theorem PathToID_panics_iff_empty (n : Node) :
    ((∃ msg, n.PathToID = .panic msg) ↔ n.Path = "")
    ∧ ((∃ id, n.PathToID = .ok id) ↔ n.Path ≠ "") := by
  by_cases h : n.Path = ""
  · have hl : n.Path.length = 0 := (path_length_zero _).2 h
    simp [Node.PathToID, hl, h]
  · have hl : ¬ n.Path.length = 0 := fun hl => h ((path_length_zero _).1 hl)
    simp [Node.PathToID, hl, h]

/-! ## Persistence of text and HTML fields -/

/-- C4: for `TextField` and `HTMLField`, loading a dumped value succeeds and
restores the field, whatever the receiver held before; and loading any string
succeeds, after which `Dump` returns that string. -/
theorem text_html_Load_Dump_inverse :
    (∀ t0 x : TextField, t0.Load x.Dump = .ok (x, none))
    ∧ (∀ (t0 : TextField) (s : String),
        ∃ t1, t0.Load (.str s) = .ok (t1, none) ∧ t1.Dump = .str s)
    ∧ (∀ t0 x : HTMLField, t0.Load x.Dump = .ok (x, none))
    ∧ (∀ (t0 : HTMLField) (s : String),
        ∃ t1, t0.Load (.str s) = .ok (t1, none) ∧ t1.Dump = .str s) := by
  refine ⟨?_, ?_, ?_, ?_⟩
  · intro t0 x
    rfl
  · intro t0 s
    exact ⟨⟨s⟩, rfl, rfl⟩
  · intro t0 x
    rfl
  · intro t0 s
    exact ⟨⟨s⟩, rfl, rfl⟩

/-! ## Digits: printing and reading back -/

theorem isDigit_digitChar (d : Nat) (h : d < 10) : isDigit (digitChar d) = true := by
  interval_cases d <;> decide

theorem digitVal_digitChar (d : Nat) (h : d < 10) : digitVal (digitChar d) = d := by
  interval_cases d <;> decide

theorem appendInt_two (n : Nat) (h : n < 100) :
    appendInt (n : Int) 2 = [digitChar (n / 10), digitChar (n % 10)] := by
  have hneg : ¬ ((n : Int) < 0) := by omega
  by_cases h10 : n < 10
  · have e1 : n / 10 = 0 := by omega
    have e2 : n % 10 = n := by omega
    simp [appendInt, decimalDigits, hneg, h10, e1, e2, digitChar]
  · have e1 : n / 10 < 10 := by omega
    simp [appendInt, decimalDigits, hneg, h10, e1]

theorem appendInt_four (n : Nat) (h : n < 10000) :
    appendInt (n : Int) 4
      = [digitChar (n / 1000), digitChar (n / 100 % 10), digitChar (n / 10 % 10),
          digitChar (n % 10)] := by
  have hneg : ¬ ((n : Int) < 0) := by omega
  by_cases h10 : n < 10
  · have e1 : n / 1000 = 0 := by omega
    have e2 : n / 100 % 10 = 0 := by omega
    have e3 : n / 10 % 10 = 0 := by omega
    have e4 : n % 10 = n := by omega
    simp [appendInt, decimalDigits, hneg, h10, e1, e2, e3, e4, digitChar, List.replicate]
  · by_cases h100 : n < 100
    · have e0 : n / 10 < 10 := by omega
      have e1 : n / 1000 = 0 := by omega
      have e2 : n / 100 % 10 = 0 := by omega
      have e3 : n / 10 % 10 = n / 10 := by omega
      simp [appendInt, decimalDigits, hneg, h10, e0, e1, e2, e3, digitChar, List.replicate]
    · by_cases h1000 : n < 1000
      · have e0 : ¬ n / 10 < 10 := by omega
        have e00 : n / 10 / 10 < 10 := by omega
        have e1 : n / 1000 = 0 := by omega
        have e2 : n / 100 % 10 = n / 10 / 10 := by omega
        have e3 : n / 10 % 10 = n / 10 % 10 := rfl
        simp [appendInt, decimalDigits, hneg, h10, e0, e00, e1, e2, digitChar, List.replicate]
      · have e0 : ¬ n / 10 < 10 := by omega
        have e00 : ¬ n / 10 / 10 < 10 := by omega
        have e000 : n / 10 / 10 / 10 < 10 := by omega
        have e1 : n / 1000 = n / 10 / 10 / 10 := by omega
        have e2 : n / 100 % 10 = n / 10 / 10 % 10 := by omega
        simp [appendInt, decimalDigits, hneg, h10, e0, e00, e000, e1, e2]

theorem getnum_digits (a b : Nat) (ha : a < 10) (hb : b < 10) (fixed : Bool)
    (rest : List Char) :
    getnum (digitChar a :: digitChar b :: rest) fixed = some (a * 10 + b, rest) := by
  simp [getnum, isDigit_digitChar, digitVal_digitChar, ha, hb]

theorem getYear_digits (a b c d : Nat) (ha : a < 10) (hb : b < 10) (hc : c < 10)
    (hd : d < 10) (rest : List Char) :
    getYear (digitChar a :: digitChar b :: digitChar c :: digitChar d :: rest)
      = some (((a * 10 + b) * 10 + c) * 10 + d, rest) := by
  simp [getYear, isDigit_digitChar, digitVal_digitChar, ha, hb, hc, hd]

theorem formatZone_whole_minutes (offset : Int) (h0 : offset ≠ 0)
    (hmin : offset % 60 = 0) (hlo : -86400 < offset) (hhi : offset < 86400) :
    ∃ (sign : Char) (z : Nat), z < 1440 ∧
      ((sign = '+' ∧ offset = ((z * 60 : Nat) : Int)) ∨
        (sign = '-' ∧ offset = -((z * 60 : Nat) : Int))) ∧
      formatZone offset
        = [sign, digitChar (z / 60 / 10), digitChar (z / 60 % 10), ':',
            digitChar (z % 60 / 10), digitChar (z % 60 % 10)] := by
  obtain ⟨k, hk⟩ : ∃ k : Int, offset = 60 * k := ⟨offset / 60, by omega⟩
  have hzone : offset.tdiv 60 = k := by
    rw [hk]
    exact Int.mul_tdiv_cancel_left k (by decide)
  have hz : k.natAbs < 1440 := by omega
  have a1 := appendInt_two (k.natAbs / 60) (by omega)
  have a2 := appendInt_two (k.natAbs % 60) (by omega)
  refine ⟨if k < 0 then '-' else '+', k.natAbs, hz, ?_, ?_⟩
  · by_cases hneg : k < 0
    · right
      refine ⟨by simp [hneg], ?_⟩
      simp only [Nat.cast_mul, Nat.cast_ofNat]
      omega
    · left
      refine ⟨by simp [hneg], ?_⟩
      simp only [Nat.cast_mul, Nat.cast_ofNat]
      omega
  · simp only [formatZone, h0, if_false, hzone, a1, a2]
    simp

theorem zone_roundtrip (offset : Int)
    (hmin : offset % 60 = 0) (hlo : -86400 < offset) (hhi : offset < 86400) :
    parseFraction (formatZone offset) = (0, formatZone offset)
    ∧ parseZone (formatZone offset) = some (offset, []) := by
  by_cases h0 : offset = 0
  · subst h0
    simp [formatZone, parseFraction, parseZone]
  · obtain ⟨sign, z, hz, hs, hf⟩ := formatZone_whole_minutes offset h0 hmin hlo hhi
    have d1 : z / 60 / 10 < 10 := by omega
    have d2 : z / 60 % 10 < 10 := by omega
    have d3 : z % 60 / 10 < 10 := by omega
    have d4 : z % 60 % 10 < 10 := by omega
    have eh : z / 60 / 10 * 10 + z / 60 % 10 = z / 60 := by omega
    have em : z % 60 / 10 * 10 + z % 60 % 10 = z % 60 := by omega
    have ehr : ¬ z / 60 > 24 := by omega
    have emm : ¬ z % 60 > 60 := by omega
    have ez : (z / 60 * 60 + z % 60) * 60 = z * 60 := by omega
    rw [hf]
    rcases hs with ⟨hsign, hoff⟩ | ⟨hsign, hoff⟩
    · subst hsign
      simp [parseFraction, parseZone, getnum_digits, d1, d2, d3, d4, eh, em, ehr, emm,
        ez, hoff]
    · subst hsign
      simp [parseFraction, parseZone, getnum_digits, d1, d2, d3, d4, eh, em, ehr, emm,
        ez, hoff]

theorem daysIn_le (month : Nat) (year : Int) : daysIn month year ≤ 31 := by
  unfold daysIn
  split_ifs <;> omega

theorem Parse_Format (t : Time) (hv : t.valid) (hr : t.representable) :
    time.ParseRFC3339 t.FormatRFC3339 = some { t with nsec := 0 } := by
  obtain ⟨year, month, day, hour, minute, second, nsec, offset⟩ := t
  obtain ⟨hm1, hm2, hd1, hd2, hh, hmi, hs, _⟩ := hv
  obtain ⟨hy0, hy1, hmin, hlo, hhi⟩ := hr
  simp only at hm1 hm2 hd1 hd2 hh hmi hs hy0 hy1 hmin hlo hhi
  obtain ⟨y, rfl⟩ : ∃ y : Nat, year = (y : Int) := ⟨year.toNat, by omega⟩
  have hd3 : day ≤ 31 := le_trans hd2 (daysIn_le _ _)
  obtain ⟨zf, zp⟩ := zone_roundtrip offset hmin hlo hhi
  have ey : ((y / 1000 * 10 + y / 100 % 10) * 10 + y / 10 % 10) * 10 + y % 10 = y := by
    omega
  have e2 : ∀ n : Nat, n / 10 * 10 + n % 10 = n := fun n => by omega
  have hm3 : ¬ (month = 0 ∨ 12 < month) := by omega
  have hh3 : ¬ (24 ≤ hour) := by omega
  have hmi3 : ¬ (60 ≤ minute) := by omega
  have hs3 : ¬ (60 ≤ second) := by omega
  have hd4 : ¬ (day < 1 ∨ day > daysIn month (y : Int)) := by omega
  have gy := getYear_digits (y / 1000) (y / 100 % 10) (y / 10 % 10) (y % 10)
    (by omega) (by omega) (by omega) (by omega)
  have g2 : ∀ (n : Nat) (fixed : Bool) (rest : List Char), n < 100 →
      getnum (digitChar (n / 10) :: digitChar (n % 10) :: rest) fixed = some (n, rest) := by
    intro n fixed rest hn
    rw [getnum_digits _ _ (by omega) (by omega), e2]
  simp only [time.ParseRFC3339, Time.FormatRFC3339,
    appendInt_four y (by omega), appendInt_two month (by omega),
    appendInt_two day (by omega), appendInt_two hour (by omega),
    appendInt_two minute (by omega), appendInt_two second (by omega),
    List.cons_append, List.nil_append, gy, ey, skipByte, if_true, Option.some_bind,
    Option.bind, g2 month true _ (by omega), g2 day true _ (by omega),
    g2 hour false _ (by omega), g2 minute true _ (by omega), g2 second true _ (by omega),
    hm3, hh3, hmi3, hs3, hd4, if_false, zf, zp, ne_eq, not_true_eq_false]

theorem Format_ne_empty (t : Time) : t.FormatRFC3339 ≠ "" := by
  intro h
  have h1 := congrArg String.data h
  simp [Time.FormatRFC3339] at h1

theorem Unix_nsec (t : Time) : Time.Unix { t with nsec := 0 } = t.Unix := rfl

theorem Load_Dump_representable (t0 : DateTimeField) (t : Time) (hv : t.valid)
    (hr : t.representable) :
    t0.Load (DateTimeField.Dump ⟨some t⟩) = .ok (⟨some { t with nsec := 0 }⟩, none) := by
  simp [DateTimeField.Load, DateTimeField.Dump, Format_ne_empty, Parse_Format t hv hr]

/-! ## Persistence of date-time fields -/

/-- C5, refuted as stated: the timestamp 10000-01-01T00:00:00Z is dumped with a
five-digit year, which `Load` rejects with an error; a timestamp whose zone
offset is 30 seconds is dumped with offset `+00:00` and comes back as an
instant 30 seconds away; and a timestamp whose zone offset is 100 hours is
dumped with a three-digit hour offset, which `Load` rejects with an error. -/
theorem DateTime_Load_Dump_counterexample :
    (Time.valid ⟨10000, 1, 1, 0, 0, 0, 0, 0⟩
      ∧ DateTimeField.Load ⟨none⟩ (DateTimeField.Dump ⟨some ⟨10000, 1, 1, 0, 0, 0, 0, 0⟩⟩)
          = .ok (⟨none⟩, some "Could not parse the date value"))
    ∧ (Time.valid ⟨2021, 5, 1, 10, 0, 0, 0, 30⟩
      ∧ DateTimeField.Load ⟨none⟩ (DateTimeField.Dump ⟨some ⟨2021, 5, 1, 10, 0, 0, 0, 30⟩⟩)
          = .ok (⟨some ⟨2021, 5, 1, 10, 0, 0, 0, 0⟩⟩, none)
      ∧ Time.Unix ⟨2021, 5, 1, 10, 0, 0, 0, 0⟩ ≠ Time.Unix ⟨2021, 5, 1, 10, 0, 0, 0, 30⟩)
    ∧ (Time.valid ⟨2021, 5, 1, 10, 0, 0, 0, 360000⟩
      ∧ DateTimeField.Dump ⟨some ⟨2021, 5, 1, 10, 0, 0, 0, 360000⟩⟩
          = .str "2021-05-01T10:00:00+100:00"
      ∧ DateTimeField.Load ⟨none⟩
          (DateTimeField.Dump ⟨some ⟨2021, 5, 1, 10, 0, 0, 0, 360000⟩⟩)
          = .ok (⟨none⟩, some "Could not parse the date value")) := by
  decide

/-- C5, amended: for a `DateTimeField` that is unset, or set to a timestamp
with a year from 0 to 9999 and a zone offset of whole minutes below 24 hours,
loading its dumped value succeeds, whatever the receiver held before, and gives
a field that is unset exactly when the original is and otherwise holds the same
instant at second precision (the same reading with the nanoseconds dropped). -/
theorem DateTime_Load_Dump_roundtrip (x t0 : DateTimeField)
    (h : ∀ t, x.Time = some t → t.valid ∧ t.representable) :
    ∃ y, t0.Load x.Dump = .ok (y, none)
      ∧ (y.Time = none ↔ x.Time = none)
      ∧ (∀ t, x.Time = some t →
          ∃ t1, y.Time = some t1 ∧ t1.Unix = t.Unix ∧ t1 = { t with nsec := 0 }) := by
  obtain ⟨xt⟩ := x
  cases xt with
  | none =>
    refine ⟨⟨none⟩, ?_, ?_, ?_⟩
    · simp [DateTimeField.Load, DateTimeField.Dump]
    · simp
    · intro t ht
      simp at ht
  | some t =>
    obtain ⟨hv, hr⟩ := h t rfl
    refine ⟨⟨some { t with nsec := 0 }⟩, Load_Dump_representable t0 t hv hr, ?_, ?_⟩
    · simp
    · intro t2 ht2
      simp only [Option.some.injEq] at ht2
      subst ht2
      exact ⟨_, rfl, Unix_nsec _, rfl⟩

theorem DateTime_Load_Dump_roundtrip_witness :
    ∃ y, DateTimeField.Load ⟨none⟩
        (DateTimeField.Dump ⟨some ⟨2021, 5, 1, 10, 0, 0, 500, 3600⟩⟩) = .ok (y, none)
      ∧ (y.Time = none ↔ (DateTimeField.mk (some ⟨2021, 5, 1, 10, 0, 0, 500, 3600⟩)).Time = none)
      ∧ (∀ t, (DateTimeField.mk (some ⟨2021, 5, 1, 10, 0, 0, 500, 3600⟩)).Time = some t →
          ∃ t1, y.Time = some t1 ∧ t1.Unix = t.Unix ∧ t1 = { t with nsec := 0 }) :=
  DateTime_Load_Dump_roundtrip ⟨some ⟨2021, 5, 1, 10, 0, 0, 500, 3600⟩⟩ ⟨none⟩
    (fun t ht => by
      simp only [Option.some.injEq] at ht
      subst ht
      decide)

/-- C6, refuted as stated: `Load` accepts `2021-05-01T10:00:00+00:00` and
`2021-05-01T10:00:00.5Z`, and after either a `Dump` returns
`2021-05-01T10:00:00Z`, not the string that was loaded. -/
theorem DateTime_Dump_Load_counterexample :
    (∃ y, DateTimeField.Load ⟨none⟩ (.str "2021-05-01T10:00:00+00:00") = .ok (y, none)
      ∧ y.Dump = .str "2021-05-01T10:00:00Z"
      ∧ y.Dump ≠ .str "2021-05-01T10:00:00+00:00")
    ∧ (∃ y, DateTimeField.Load ⟨none⟩ (.str "2021-05-01T10:00:00.5Z") = .ok (y, none)
      ∧ y.Dump = .str "2021-05-01T10:00:00Z"
      ∧ y.Dump ≠ .str "2021-05-01T10:00:00.5Z") := by
  refine ⟨⟨⟨some ⟨2021, 5, 1, 10, 0, 0, 0, 0⟩⟩, ?_, ?_, ?_⟩,
    ⟨⟨some ⟨2021, 5, 1, 10, 0, 0, 500000000, 0⟩⟩, ?_, ?_, ?_⟩⟩ <;> decide

/-- C6, amended: `Dump` inverts `Load` on the strings that `Dump` itself
writes: for a field that is unset, or set to a timestamp with a year from 0 to
9999 and a zone offset of whole minutes below 24 hours, `Load` accepts the
dumped string and a following `Dump` returns exactly that string; so does
`2021-05-01T10:00:00Z`. -/
theorem DateTime_Dump_Load_canonical (x t0 : DateTimeField)
    (h : ∀ t, x.Time = some t → t.valid ∧ t.representable) :
    (∃ y, t0.Load x.Dump = .ok (y, none) ∧ y.Dump = x.Dump)
    ∧ (∃ y, t0.Load (.str "2021-05-01T10:00:00Z") = .ok (y, none)
        ∧ y.Dump = .str "2021-05-01T10:00:00Z") := by
  constructor
  · obtain ⟨xt⟩ := x
    cases xt with
    | none =>
      exact ⟨⟨none⟩, by simp [DateTimeField.Load, DateTimeField.Dump], rfl⟩
    | some t =>
      obtain ⟨hv, hr⟩ := h t rfl
      exact ⟨_, Load_Dump_representable t0 t hv hr, rfl⟩
  · refine ⟨⟨some ⟨2021, 5, 1, 10, 0, 0, 0, 0⟩⟩, ?_, by decide⟩
    have hp : time.ParseRFC3339 "2021-05-01T10:00:00Z"
        = some ⟨2021, 5, 1, 10, 0, 0, 0, 0⟩ := by decide
    have hne : ¬ (("2021-05-01T10:00:00Z" : String) = "") := by decide
    simp [DateTimeField.Load, hp, hne]

theorem DateTime_Dump_Load_canonical_witness :
    (∃ y, DateTimeField.Load ⟨none⟩
        (DateTimeField.Dump ⟨some ⟨1999, 12, 31, 23, 59, 59, 7, -19800⟩⟩) = .ok (y, none)
      ∧ y.Dump = DateTimeField.Dump ⟨some ⟨1999, 12, 31, 23, 59, 59, 7, -19800⟩⟩)
    ∧ (∃ y, DateTimeField.Load ⟨none⟩ (.str "2021-05-01T10:00:00Z") = .ok (y, none)
        ∧ y.Dump = .str "2021-05-01T10:00:00Z") :=
  DateTime_Dump_Load_canonical ⟨some ⟨1999, 12, 31, 23, 59, 59, 7, -19800⟩⟩ ⟨none⟩
    (fun t ht => by
      simp only [Option.some.injEq] at ht
      subst ht
      decide)

/-- C7: whatever a `DateTimeField` held before, `Load("")` succeeds and leaves
the timestamp unset; `Dump` of an unset field returns the empty string; and
`Dump` returns the empty string only when the timestamp is unset. -/
theorem DateTime_empty_string :
    (∀ t : DateTimeField, t.Load (.str "") = .ok (⟨none⟩, none))
    ∧ DateTimeField.Dump ⟨none⟩ = .str ""
    ∧ (∀ t : DateTimeField, t.Dump = .str "" ↔ t.Time = none) := by
  refine ⟨?_, rfl, ?_⟩
  · intro t
    simp [DateTimeField.Load]
  · intro t
    obtain ⟨tt⟩ := t
    cases tt with
    | none => simp [DateTimeField.Dump]
    | some v => simp [DateTimeField.Dump, Format_ne_empty]

/-! ## Decode errors -/

/-- C8, refuted as stated: given the number 5, which is not a string, the
`Load` of a `FileField` returns without an error. -/
theorem Load_non_string_counterexample :
    GoValue.isString (.num 5) = false
    ∧ Field.Load (.file ⟨""⟩) (.num 5) = .ok (.file ⟨""⟩, none)
    ∧ ¬ (∀ (f : Field) (v : GoValue), v.isString = false →
          ∃ f1 msg, f.Load v = .ok (f1, some msg)) := by
  refine ⟨rfl, rfl, ?_⟩
  intro h
  obtain ⟨f1, msg, hl⟩ := h (.file ⟨""⟩) (.num 5) rfl
  simp [Field.Load, FileField.Load] at hl

/-- C8, amended: for every raw value that is not a string, the `Load` of a
`DateTimeField` returns an error to its caller and leaves the field as it was,
and the `Load` of a `FileField` returns no error and leaves the field as it
was. -/
theorem Load_non_string (v : GoValue) (h : v.isString = false) :
    (∀ t : DateTimeField, t.Load v = .ok (t, some "Data is not string"))
    ∧ (∀ t : DateTimeField, Field.Load (.dateTime t) v
          = .ok (.dateTime t, some "Data is not string"))
    ∧ (∀ t : FileField, t.Load v = .ok (t, none))
    ∧ (∀ t : FileField, Field.Load (.file t) v = .ok (.file t, none)) := by
  cases v with
  | str s => simp [GoValue.isString] at h
  | nil => exact ⟨fun _ => rfl, fun _ => rfl, fun _ => rfl, fun _ => rfl⟩
  | bool b => exact ⟨fun _ => rfl, fun _ => rfl, fun _ => rfl, fun _ => rfl⟩
  | num i => exact ⟨fun _ => rfl, fun _ => rfl, fun _ => rfl, fun _ => rfl⟩

theorem Load_non_string_witness :
    GoValue.isString (.num 5) = false
    ∧ (∀ t : DateTimeField, t.Load (.num 5) = .ok (t, some "Data is not string"))
    ∧ (∀ t : DateTimeField, Field.Load (.dateTime t) (.num 5)
          = .ok (.dateTime t, some "Data is not string"))
    ∧ (∀ t : FileField, t.Load (.num 5) = .ok (t, none))
    ∧ (∀ t : FileField, Field.Load (.file t) (.num 5) = .ok (.file t, none)) :=
  ⟨rfl, Load_non_string (.num 5) rfl⟩

/-- C9: for every state of a `DateTimeField` and every non-empty string that
`time.Parse` rejects for the RFC 3339 layout, `Load` returns an error and the
timestamp is what it was before the call. -/
theorem DateTime_Load_malformed (t : DateTimeField) (s : String) (hne : s ≠ "")
    (hbad : time.ParseRFC3339 s = none) :
    ∃ msg, t.Load (.str s) = .ok (t, some msg) := by
  exact ⟨"Could not parse the date value", by simp [DateTimeField.Load, hne, hbad]⟩

theorem DateTime_Load_malformed_witness :
    ("2021-05-01 10:00" : String) ≠ ""
    ∧ time.ParseRFC3339 "2021-05-01 10:00" = none
    ∧ ∃ msg, DateTimeField.Load ⟨some ⟨1999, 12, 31, 23, 59, 59, 0, 0⟩⟩
        (.str "2021-05-01 10:00")
        = .ok (⟨some ⟨1999, 12, 31, 23, 59, 59, 0, 0⟩⟩, some msg) :=
  ⟨by decide, by decide,
    DateTime_Load_malformed ⟨some ⟨1999, 12, 31, 23, 59, 59, 0, 0⟩⟩ "2021-05-01 10:00"
      (by decide) (by decide)⟩

/-! ## Schema completeness of `InitFields` -/

theorem newField_known (tag : String) (h : tag ∈ knownTags) :
    ∃ v, newField tag = .ok v := by
  simp only [knownTags, List.mem_cons, List.mem_singleton, List.not_mem_nil, or_false] at h
  rcases h with h | h | h | h <;> subst h
  · exact ⟨.dateTime ⟨none⟩, by decide⟩
  · exact ⟨.file ⟨""⟩, by decide⟩
  · exact ⟨.text ⟨""⟩, by decide⟩
  · exact ⟨.html ⟨""⟩, by decide⟩

theorem keys_set {V : Type} (m : GoMap V) (k : String) (v : V) :
    (m.set k v).keys = k :: GoMap.keys (m.filter (fun e => e.1 ≠ k)) := rfl

theorem mem_keys_filter {V : Type} (m : GoMap V) (k k1 : String) :
    k1 ∈ GoMap.keys (m.filter (fun e => e.1 ≠ k)) ↔ k1 ∈ m.keys ∧ k1 ≠ k := by
  simp only [GoMap.keys, List.mem_map, List.mem_filter, decide_eq_true_eq]
  constructor
  · rintro ⟨e, ⟨he, hk⟩, rfl⟩
    exact ⟨⟨e, he, rfl⟩, hk⟩
  · rintro ⟨⟨e, he, rfl⟩, hk⟩
    exact ⟨e, ⟨he, hk⟩, rfl⟩

theorem nodup_keys_set {V : Type} (m : GoMap V) (k : String) (v : V)
    (h : m.keys.Nodup) : (m.set k v).keys.Nodup := by
  rw [keys_set, List.nodup_cons]
  constructor
  · intro hk
    exact ((mem_keys_filter m k k).1 hk).2 rfl
  · exact List.Nodup.sublist (List.Sublist.map _ (List.filter_sublist m)) h

theorem initLoop_keys (fs : List NodeField) (m : GoMap Field)
    (hknown : ∀ f ∈ fs, f.Type_ ∈ knownTags) :
    ∃ m1, initLoop fs m = .ok m1
      ∧ (∀ k, k ∈ m1.keys ↔ k ∈ m.keys ∨ ∃ f ∈ fs, f.Id = k)
      ∧ (m.keys.Nodup → m1.keys.Nodup) := by
  induction fs generalizing m with
  | nil => exact ⟨m, rfl, by simp, id⟩
  | cons f rest ih =>
    obtain ⟨v, hv⟩ := newField_known f.Type_ (hknown f (by simp))
    obtain ⟨m1, h1, h2, h3⟩ := ih (m.set f.Id v) (fun g hg => hknown g (by simp [hg]))
    refine ⟨m1, by simp [initLoop, hv, h1], ?_, fun hm => h3 (nodup_keys_set m f.Id v hm)⟩
    intro k
    rw [h2 k, keys_set, List.mem_cons, mem_keys_filter]
    by_cases hk : k = f.Id
    · subst hk
      simp
    · have hk2 : ¬ f.Id = k := fun e => hk e.symm
      simp [hk, hk2]

/-- C10: for a node whose type uses only known type tags, and whatever its
`Fields` held before, `InitFields` completes and the new `Fields` has exactly
the descriptor ids as its keys, each key once; with distinct descriptor ids
there are as many entries as descriptors. -/
theorem InitFields_schema_complete (n : Node) (ty : NodeType)
    (hty : n.Type_ = some ty) (hknown : ∀ f ∈ ty.Fields, f.Type_ ∈ knownTags) :
    ∃ n1, n.InitFields = .ok n1
      ∧ (∀ k, k ∈ n1.Fields.keys ↔ k ∈ ty.Fields.map (fun f => f.Id))
      ∧ n1.Fields.keys.Nodup
      ∧ ((ty.Fields.map (fun f => f.Id)).Nodup → n1.Fields.length = ty.Fields.length) := by
  obtain ⟨m1, h1, h2, h3⟩ := initLoop_keys ty.Fields [] hknown
  have hmem : ∀ k, k ∈ GoMap.keys m1 ↔ k ∈ ty.Fields.map (fun f => f.Id) := by
    intro k
    rw [h2 k]
    simp [GoMap.keys]
  have hnd : (GoMap.keys m1).Nodup := h3 (by simp [GoMap.keys])
  refine ⟨{ n with Fields := m1 }, by simp [Node.InitFields, hty, h1], hmem, hnd, ?_⟩
  intro hids
  have hp := (List.perm_ext_iff_of_nodup hnd hids).2 hmem
  have hl := hp.length_eq
  simpa [GoMap.keys] using hl

theorem InitFields_schema_complete_witness :
    ∃ n1, Node.InitFields ⟨"/a", some ⟨[⟨"title", "Text", []⟩, ⟨"body", "HTMLArea", []⟩,
          ⟨"date", "DateTime", []⟩, ⟨"title", "File", []⟩]⟩, 0, false,
          [("stale", .text ⟨"x"⟩)]⟩ = .ok n1
      ∧ (∀ k, k ∈ n1.Fields.keys ↔ k ∈ ["title", "body", "date", "title"])
      ∧ n1.Fields.keys.Nodup
      ∧ ((["title", "body", "date", "title"] : List String).Nodup → n1.Fields.length = 4) :=
  InitFields_schema_complete
    ⟨"/a", some ⟨[⟨"title", "Text", []⟩, ⟨"body", "HTMLArea", []⟩,
      ⟨"date", "DateTime", []⟩, ⟨"title", "File", []⟩]⟩, 0, false, [("stale", .text ⟨"x"⟩)]⟩
    ⟨[⟨"title", "Text", []⟩, ⟨"body", "HTMLArea", []⟩, ⟨"date", "DateTime", []⟩,
      ⟨"title", "File", []⟩]⟩ rfl (by decide)

/-! ## Unknown type tags -/

theorem newField_unknown (tag : String) (h : ¬ tag ∈ knownTags) :
    newField tag = .panic ("Unknown field type " ++ tag) := by
  simp only [knownTags, List.mem_cons, List.mem_singleton, List.not_mem_nil, or_false,
    not_or] at h
  obtain ⟨h1, h2, h3, h4⟩ := h
  simp [newField, h1, h2, h3, h4]

theorem initLoop_panics_iff (fs : List NodeField) (m : GoMap Field) :
    (∃ msg, initLoop fs m = .panic msg) ↔ ∃ f ∈ fs, ¬ f.Type_ ∈ knownTags := by
  induction fs generalizing m with
  | nil => simp [initLoop]
  | cons f rest ih =>
    by_cases hk : f.Type_ ∈ knownTags
    · obtain ⟨v, hv⟩ := newField_known f.Type_ hk
      simp only [initLoop, hv, ih, List.mem_cons]
      constructor
      · rintro ⟨g, hg, hgt⟩
        exact ⟨g, Or.inr hg, hgt⟩
      · rintro ⟨g, hg | hg, hgt⟩
        · subst hg
          exact absurd hk hgt
        · exact ⟨g, hg, hgt⟩
    · simp only [initLoop, newField_unknown f.Type_ hk, List.mem_cons]
      constructor
      · intro _
        exact ⟨f, Or.inl rfl, hk⟩
      · intro _
        exact ⟨_, rfl⟩

/-- C11: for a node with a type, `InitFields` panics exactly when some
descriptor has a type tag outside `DateTime`, `File`, `Text`, `HTMLArea`, and
completes exactly when all tags are among these four; a descriptor tagged
`Unknown` makes it panic. -/
theorem InitFields_panics_iff_unknown_tag (n : Node) (ty : NodeType)
    (hty : n.Type_ = some ty) :
    ((∃ msg, n.InitFields = .panic msg) ↔ ∃ f ∈ ty.Fields, ¬ f.Type_ ∈ knownTags)
    ∧ ((∃ n1, n.InitFields = .ok n1) ↔ ∀ f ∈ ty.Fields, f.Type_ ∈ knownTags)
    ∧ (∀ (id : String) (name : List (String × String)) (others : List NodeField),
        ∃ msg, Node.InitFields { n with Type_ := some ⟨⟨id, "Unknown", name⟩ :: others⟩ }
          = .panic msg) := by
  have hp := initLoop_panics_iff ty.Fields []
  refine ⟨?_, ?_, ?_⟩
  · rw [← hp]
    cases hl : initLoop ty.Fields [] <;> simp [Node.InitFields, hty, hl]
  · have hn : (∀ f ∈ ty.Fields, f.Type_ ∈ knownTags)
        ↔ ¬ ∃ f ∈ ty.Fields, ¬ f.Type_ ∈ knownTags := by
      push_neg
      rfl
    rw [hn, ← hp]
    cases hl : initLoop ty.Fields [] <;> simp [Node.InitFields, hty, hl]
  · intro id name others
    exact ⟨"Unknown field type Unknown", by
      simp [Node.InitFields, initLoop, newField_unknown "Unknown" (by decide)]⟩

theorem InitFields_panics_iff_unknown_tag_witness :
    (Node.mk "/a" (some ⟨[⟨"t", "Text", []⟩, ⟨"u", "Unknown", []⟩]⟩) 0 false []).Type_
        = some ⟨[⟨"t", "Text", []⟩, ⟨"u", "Unknown", []⟩]⟩
    ∧ ((∃ msg, Node.InitFields
          ⟨"/a", some ⟨[⟨"t", "Text", []⟩, ⟨"u", "Unknown", []⟩]⟩, 0, false, []⟩ = .panic msg)
        ↔ ∃ f ∈ [(⟨"t", "Text", []⟩ : NodeField), ⟨"u", "Unknown", []⟩],
            ¬ f.Type_ ∈ knownTags) :=
  ⟨rfl, (InitFields_panics_iff_unknown_tag
    ⟨"/a", some ⟨[⟨"t", "Text", []⟩, ⟨"u", "Unknown", []⟩]⟩, 0, false, []⟩
    ⟨[⟨"t", "Text", []⟩, ⟨"u", "Unknown", []⟩]⟩ rfl).1⟩

/-! ## Map lookups -/

theorem find_filter_ne {V : Type} (m : GoMap V) (k k1 : String) (h : k1 ≠ k) :
    (m.filter (fun e => e.1 ≠ k)).find? (fun e => e.1 = k1)
      = m.find? (fun e => e.1 = k1) := by
  induction m with
  | nil => rfl
  | cons e rest ih =>
    obtain ⟨a, b⟩ := e
    by_cases ha : a = k
    · subst ha
      have ha1 : ¬ a = k1 := fun e => h e.symm
      simpa [List.filter_cons, List.find?_cons, ha1, -List.find?_filter] using ih
    · by_cases ha1 : a = k1
      · subst ha1
        simp [List.filter_cons, List.find?_cons, ha, -List.find?_filter]
      · simpa [List.filter_cons, List.find?_cons, ha, ha1, -List.find?_filter] using ih

theorem get_set_same {V : Type} (m : GoMap V) (k : String) (v : V) :
    GoMap.get (GoMap.set m k v) k = some v := by
  simp [GoMap.get, GoMap.set]

theorem get_set_other {V : Type} (m : GoMap V) (k k1 : String) (v : V) (h : k1 ≠ k) :
    GoMap.get (GoMap.set m k v) k1 = GoMap.get m k1 := by
  have hk : ¬ k = k1 := fun e => h e.symm
  simp only [GoMap.get, GoMap.set]
  rw [List.find?_cons_of_neg _ (by simpa using hk), find_filter_ne m k k1 h]

theorem NestedMap_Get_Set_same (data : NestedMap) (k : String) (v : GoValue) :
    NestedMap.Get (NestedMap.Set data k v) k = v := by
  simp [NestedMap.Get, NestedMap.Set, get_set_same]

theorem NestedMap_Get_Set_other (data : NestedMap) (k k1 : String) (v : GoValue)
    (h : k1 ≠ k) :
    NestedMap.Get (NestedMap.Set data k v) k1 = NestedMap.Get data k1 := by
  simp [NestedMap.Get, NestedMap.Set, get_set_other _ _ _ _ h]

theorem append_suffix_ne (id : String) : id ++ ".Date" ≠ id ++ ".Time" := by
  intro h
  have h1 := congrArg String.data h
  simp only [String.data_append, List.append_cancel_left_eq] at h1
  exact absurd h1 (by decide)

/-! ## Zero values after `InitFields` -/

theorem initLoop_append (a b : List NodeField) (m : GoMap Field) :
    initLoop (a ++ b) m
      = (match initLoop a m with
        | .ok m1 => initLoop b m1
        | .panic msg => .panic msg) := by
  induction a generalizing m with
  | nil => rfl
  | cons f rest ih =>
    cases hv : newField f.Type_ with
    | ok v => simp [initLoop, hv, ih]
    | panic msg => simp [initLoop, hv]

theorem initLoop_get_frame (fs : List NodeField) (m m1 : GoMap Field) (k : String)
    (h : initLoop fs m = .ok m1) (hk : ∀ g ∈ fs, g.Id ≠ k) :
    GoMap.get m1 k = GoMap.get m k := by
  induction fs generalizing m with
  | nil =>
    simp only [initLoop, Res.ok.injEq] at h
    rw [h]
  | cons f rest ih =>
    cases hv : newField f.Type_ with
    | panic msg => simp [initLoop, hv] at h
    | ok v =>
      simp only [initLoop, hv] at h
      rw [ih _ h (fun g hg => hk g (by simp [hg]))]
      exact get_set_other m f.Id k v (fun e => hk f (by simp) e.symm)

theorem initLoop_get_last (known pre post : List NodeField) (f : NodeField)
    (m m1 : GoMap Field) (v : Field) (hf : known = pre ++ f :: post)
    (h : initLoop known m = .ok m1) (hv : newField f.Type_ = .ok v)
    (hpost : ∀ g ∈ post, g.Id ≠ f.Id) : GoMap.get m1 f.Id = some v := by
  subst hf
  rw [initLoop_append] at h
  cases hpre : initLoop pre m with
  | panic msg => simp [hpre] at h
  | ok m2 =>
    simp only [hpre, initLoop, hv] at h
    rw [initLoop_get_frame post _ m1 f.Id h hpost]
    exact get_set_same m2 f.Id v

/-- C19: after `InitFields` on a type whose tags are all known, the entry under
the id of a descriptor that is the last one carrying that id is a fresh zero
value of the variant its tag names: `Text` an empty `TextField`, `HTMLArea` an
empty `HTMLField`, `File` an empty `FileField`, `DateTime` an unset
`DateTimeField`. -/
theorem InitFields_zero_values (n : Node) (ty : NodeType)
    (hty : n.Type_ = some ty) (hknown : ∀ f ∈ ty.Fields, f.Type_ ∈ knownTags) :
    ∃ n1, n.InitFields = .ok n1 ∧
      ∀ (pre post : List NodeField) (f : NodeField), ty.Fields = pre ++ f :: post →
        (∀ g ∈ post, g.Id ≠ f.Id) →
        (f.Type_ = "Text" → GoMap.get n1.Fields f.Id = some (.text ⟨""⟩))
        ∧ (f.Type_ = "HTMLArea" → GoMap.get n1.Fields f.Id = some (.html ⟨""⟩))
        ∧ (f.Type_ = "File" → GoMap.get n1.Fields f.Id = some (.file ⟨""⟩))
        ∧ (f.Type_ = "DateTime" → GoMap.get n1.Fields f.Id = some (.dateTime ⟨none⟩)) := by
  obtain ⟨m1, h1, _, _⟩ := initLoop_keys ty.Fields [] hknown
  refine ⟨{ n with Fields := m1 }, by simp [Node.InitFields, hty, h1], ?_⟩
  intro pre post f hf hpost
  have key : ∀ v, newField f.Type_ = .ok v → GoMap.get m1 f.Id = some v :=
    fun v hv => initLoop_get_last ty.Fields pre post f [] m1 v hf h1 hv hpost
  refine ⟨?_, ?_, ?_, ?_⟩ <;> intro ht <;> apply key <;> rw [ht] <;> decide

theorem InitFields_zero_values_witness :
    ∃ n1, Node.InitFields ⟨"/a", some ⟨[⟨"title", "Text", []⟩, ⟨"date", "DateTime", []⟩,
          ⟨"title", "File", []⟩]⟩, 0, false, [("stale", .text ⟨"x"⟩)]⟩ = .ok n1 ∧
      ∀ (pre post : List NodeField) (f : NodeField),
        [(⟨"title", "Text", []⟩ : NodeField), ⟨"date", "DateTime", []⟩,
          ⟨"title", "File", []⟩] = pre ++ f :: post →
        (∀ g ∈ post, g.Id ≠ f.Id) →
        (f.Type_ = "Text" → GoMap.get n1.Fields f.Id = some (.text ⟨""⟩))
        ∧ (f.Type_ = "HTMLArea" → GoMap.get n1.Fields f.Id = some (.html ⟨""⟩))
        ∧ (f.Type_ = "File" → GoMap.get n1.Fields f.Id = some (.file ⟨""⟩))
        ∧ (f.Type_ = "DateTime" → GoMap.get n1.Fields f.Id = some (.dateTime ⟨none⟩)) :=
  InitFields_zero_values
    ⟨"/a", some ⟨[⟨"title", "Text", []⟩, ⟨"date", "DateTime", []⟩, ⟨"title", "File", []⟩]⟩,
      0, false, [("stale", .text ⟨"x"⟩)]⟩
    ⟨[⟨"title", "Text", []⟩, ⟨"date", "DateTime", []⟩, ⟨"title", "File", []⟩]⟩ rfl
    (by decide)

/-! ## Form descriptors -/

/-- C13: `ToFormField` keeps the existing descriptors, unchanged and in order,
and appends after them one descriptor with path `Fields.<id>` for a text, HTML
or file field, and two, with paths `Fields.<id>.Date` then `Fields.<id>.Time`,
for a date-time field; the appended descriptors carry a `Required` validator
for text, HTML and date-time and none for a file field, and a widget only for
HTML (the rich-text editor) and file (the file upload). -/
theorem ToFormField_appends (G : String → String) (f : Field) (fields : List form.Field)
    (data : NestedMap) (field : NodeField) (locale : String) :
    ∃ added, (f.ToFormField G fields data field locale).1 = fields ++ added ∧
      (match f with
        | .text _ =>
          added.map (fun d => d.Path) = ["Fields." ++ field.Id]
          ∧ ∀ d ∈ added, (∃ msg, d.Validator = some (.Required msg)) ∧ d.Widget = none
        | .html _ =>
          added.map (fun d => d.Path) = ["Fields." ++ field.Id]
          ∧ ∀ d ∈ added, (∃ msg, d.Validator = some (.Required msg))
              ∧ d.Widget = some .AlohaEditor
        | .file _ =>
          added.map (fun d => d.Path) = ["Fields." ++ field.Id]
          ∧ ∀ d ∈ added, d.Validator = none ∧ d.Widget = some .FileWidget
        | .dateTime _ =>
          added.map (fun d => d.Path)
              = ["Fields." ++ field.Id ++ ".Date", "Fields." ++ field.Id ++ ".Time"]
          ∧ ∀ d ∈ added, (∃ msg, d.Validator = some (.Required msg)) ∧ d.Widget = none) := by
  cases f with
  | text t =>
    exact ⟨_, rfl, rfl, by simp⟩
  | html t =>
    exact ⟨_, rfl, rfl, by simp⟩
  | file t =>
    exact ⟨_, rfl, rfl, by simp⟩
  | dateTime t =>
    refine ⟨[⟨"Fields." ++ field.Id ++ ".Date", field.localName locale ++ "Date", "",
        some (.Required (G "Required.")), none⟩,
      ⟨"Fields." ++ field.Id ++ ".Time", field.localName locale ++ "Time", "",
        some (.Required (G "Required.")), none⟩], ?_, rfl, by simp⟩
    simp [Field.ToFormField, DateTimeField.ToFormField]

/-- C14, refuted as stated: a text field `x` bound under the descriptor id
`title` appends a descriptor with path `Fields.title`, but the data map holds
nothing under `Fields.title`: the value is under `title`. -/
theorem ToFormField_path_counterexample :
    ((TextField.ToFormField id ⟨"x"⟩ [] [] ⟨"title", "Text", []⟩ "en").1.map
        (fun d => d.Path) = ["Fields.title"])
    ∧ NestedMap.Get (TextField.ToFormField id ⟨"x"⟩ [] [] ⟨"title", "Text", []⟩ "en").2
        "Fields.title" = .nil
    ∧ NestedMap.Get (TextField.ToFormField id ⟨"x"⟩ [] [] ⟨"title", "Text", []⟩ "en").2
        "title" = .str "x" := by
  decide

/-- C14, amended: the presentation value that `ToFormField` writes is stored in
the data map under the path of the appended descriptor without its leading
`Fields.`: `<id>` for text, HTML and file, `<id>.Date` and `<id>.Time` for
date-time; and `FromFormField` of each variant reads those same keys: a text,
HTML or file field takes the string found under `<id>`, a date-time field
parses the strings found under `<id>.Date` and `<id>.Time`, and for each
variant two data maps that agree on its own keys give the same result. -/
theorem ToFormField_data_keys (G : String → String) (fields : List form.Field)
    (data : NestedMap) (field : NodeField) (locale : String) :
    (∀ t : TextField,
        NestedMap.Get (t.ToFormField G fields data field locale).2 field.Id = .str t.s
        ∧ ((t.ToFormField G fields data field locale).1.drop fields.length).map
            (fun d => d.Path) = ["Fields." ++ field.Id])
    ∧ (∀ t : HTMLField,
        NestedMap.Get (t.ToFormField G fields data field locale).2 field.Id = .str t.s
        ∧ ((t.ToFormField G fields data field locale).1.drop fields.length).map
            (fun d => d.Path) = ["Fields." ++ field.Id])
    ∧ (∀ t : FileField,
        NestedMap.Get (t.ToFormField fields data field locale).2 field.Id = .str ""
        ∧ ((t.ToFormField fields data field locale).1.drop fields.length).map
            (fun d => d.Path) = ["Fields." ++ field.Id])
    ∧ (∀ (t : DateTimeField) (val : Time), t.Time = some val →
        NestedMap.Get (t.ToFormField G fields data field locale).2 (field.Id ++ ".Date")
            = .str val.FormatDate
        ∧ NestedMap.Get (t.ToFormField G fields data field locale).2 (field.Id ++ ".Time")
            = .str val.FormatClock
        ∧ ((t.ToFormField G fields data field locale).1.drop fields.length).map
            (fun d => d.Path)
            = ["Fields." ++ (field.Id ++ ".Date"), "Fields." ++ (field.Id ++ ".Time")])
    ∧ (∀ (t : TextField) (d : NestedMap) (s : String),
        NestedMap.Get d field.Id = .str s → t.FromFormField d field = .ok ⟨s⟩)
    ∧ (∀ (t : HTMLField) (d : NestedMap) (s : String),
        NestedMap.Get d field.Id = .str s → t.FromFormField d field = .ok ⟨s⟩)
    ∧ (∀ (t : FileField) (d : NestedMap) (s : String),
        NestedMap.Get d field.Id = .str s → t.FromFormField d field = .ok ⟨s⟩)
    ∧ (∀ (t : DateTimeField) (d : NestedMap) (sd st : String),
        NestedMap.Get d (field.Id ++ ".Date") = .str sd →
        NestedMap.Get d (field.Id ++ ".Time") = .str st →
        t.FromFormField d field
          = .ok ⟨some ((time.ParseDateClock (sd ++ "T" ++ st)).getD zeroTime)⟩)
    ∧ (∀ (t : TextField) (d1 d2 : NestedMap),
        NestedMap.Get d1 field.Id = NestedMap.Get d2 field.Id →
        Field.FromFormField (.text t) d1 field = Field.FromFormField (.text t) d2 field)
    ∧ (∀ (t : HTMLField) (d1 d2 : NestedMap),
        NestedMap.Get d1 field.Id = NestedMap.Get d2 field.Id →
        Field.FromFormField (.html t) d1 field = Field.FromFormField (.html t) d2 field)
    ∧ (∀ (t : FileField) (d1 d2 : NestedMap),
        NestedMap.Get d1 field.Id = NestedMap.Get d2 field.Id →
        Field.FromFormField (.file t) d1 field = Field.FromFormField (.file t) d2 field)
    ∧ (∀ (t : DateTimeField) (d1 d2 : NestedMap),
        NestedMap.Get d1 (field.Id ++ ".Date") = NestedMap.Get d2 (field.Id ++ ".Date") →
        NestedMap.Get d1 (field.Id ++ ".Time") = NestedMap.Get d2 (field.Id ++ ".Time") →
        Field.FromFormField (.dateTime t) d1 field
          = Field.FromFormField (.dateTime t) d2 field) := by
  refine ⟨?_, ?_, ?_, ?_, ?_, ?_, ?_, ?_, ?_, ?_, ?_, ?_⟩
  · intro t
    exact ⟨NestedMap_Get_Set_same _ _ _, by simp [TextField.ToFormField]⟩
  · intro t
    exact ⟨NestedMap_Get_Set_same _ _ _, by simp [HTMLField.ToFormField]⟩
  · intro t
    exact ⟨NestedMap_Get_Set_same _ _ _, by simp [FileField.ToFormField]⟩
  · intro t val ht
    refine ⟨?_, ?_, ?_⟩
    · simp only [DateTimeField.ToFormField, ht]
      rw [NestedMap_Get_Set_other _ _ _ _ (append_suffix_ne field.Id),
        NestedMap_Get_Set_same]
    · simp only [DateTimeField.ToFormField, ht]
      rw [NestedMap_Get_Set_same]
    · simp [DateTimeField.ToFormField, String.append_assoc]
  · intro t d s h
    simp [TextField.FromFormField, h]
  · intro t d s h
    simp [HTMLField.FromFormField, h]
  · intro t d s h
    simp [FileField.FromFormField, h]
  · intro t d sd st h1 h2
    simp [DateTimeField.FromFormField, h1, h2]
  · intro t d1 d2 h0
    simp [Field.FromFormField, TextField.FromFormField, h0]
  · intro t d1 d2 h0
    simp [Field.FromFormField, HTMLField.FromFormField, h0]
  · intro t d1 d2 h0
    simp [Field.FromFormField, FileField.FromFormField, h0]
  · intro t d1 d2 h1 h2
    simp [Field.FromFormField, DateTimeField.FromFormField, h1, h2]

/-! ## Display and raw string form -/

/-- C17: `RenderHTML` returns a `template.HTML` exactly for an `HTMLField`: the
rendering of a text, file or date-time field is never marked trusted, and the
rendering of an HTML field is the trusted markup made of its string. -/
theorem RenderHTML_trusted_iff_html (timeString : TimeStringer) (f : Field) :
    ((f.RenderHTML timeString).isTrusted = true ↔ ∃ h : HTMLField, f = .html h)
    ∧ (∀ t : TextField, (Field.RenderHTML timeString (.text t)).isTrusted = false)
    ∧ (∀ t : FileField, (Field.RenderHTML timeString (.file t)).isTrusted = false)
    ∧ (∀ t : DateTimeField, (Field.RenderHTML timeString (.dateTime t)).isTrusted = false)
    ∧ (∀ h : HTMLField, Field.RenderHTML timeString (.html h) = .templateHTML h.s) := by
  refine ⟨?_, fun _ => rfl, fun _ => rfl, ?_, fun _ => rfl⟩
  · cases f with
    | text t => simp [Field.RenderHTML, TextField.RenderHTML, Rendered.isTrusted]
    | html t => simp [Field.RenderHTML, HTMLField.RenderHTML, Rendered.isTrusted]
    | file t => simp [Field.RenderHTML, FileField.RenderHTML, Rendered.isTrusted]
    | dateTime t =>
      obtain ⟨tt⟩ := t
      cases tt <;> simp [Field.RenderHTML, DateTimeField.RenderHTML, Rendered.isTrusted]
  · intro t
    obtain ⟨tt⟩ := t
    cases tt <;> rfl

/-- C18, the code at the failing input: the `DateTime` field that `InitFields`
constructs, which is also what `Load("")` leaves behind, has no timestamp, and
`String` on it panics, while `RenderHTML` on it returns the empty string. -/
theorem DateTimeField_String_unset_panics (timeString : TimeStringer) :
    newField "DateTime" = .ok (.dateTime ⟨none⟩)
    ∧ (∀ t : DateTimeField, t.Load (.str "") = .ok (⟨none⟩, none))
    ∧ Field.String timeString (.dateTime ⟨none⟩)
        = .panic "invalid memory address or nil pointer dereference"
    ∧ Field.RenderHTML timeString (.dateTime ⟨none⟩) = .string "" := by
  refine ⟨by decide, ?_, rfl, rfl⟩
  intro t
  simp [DateTimeField.Load]

/-! ## Module start -/

theorem startModules_started (cfgPath : String) (modules : List String)
    (log : List String) (started : List exec.Cmd) :
    (startModules cfgPath modules (log, started)).2
      = started ++ modules.map
          (fun m => (⟨"monsti-" ++ m, ["monsti-" ++ m, cfgPath], some ⟨m⟩⟩ : exec.Cmd)) := by
  induction modules generalizing log started with
  | nil => simp [startModules]
  | cons m rest ih =>
    simp only [startModules, exec.Command, ih, List.map_cons, List.append_assoc,
      List.singleton_append]

/-- C16: for a module list of length N the start loop hands over exactly N
commands, in list order; the i-th runs the executable `monsti-` followed by the
i-th module name, its argument vector is that name and the configuration
directory, and its standard error goes to a `moduleLog` tagged with the same
module name; the modules `pages` and `example` give `monsti-pages <cfgdir>` and
`monsti-example <cfgdir>`. -/
theorem startModules_spawns_each_module (cfgPath : String) (modules : List String) :
    (startModules cfgPath modules ([], [])).2.length = modules.length
    ∧ (∀ i : Nat, (startModules cfgPath modules ([], [])).2[i]?
        = modules[i]?.map
            (fun m => (⟨"monsti-" ++ m, ["monsti-" ++ m, cfgPath], some ⟨m⟩⟩ : exec.Cmd)))
    ∧ (startModules cfgPath ["pages", "example"] ([], [])).2
        = [⟨"monsti-pages", ["monsti-pages", cfgPath], some ⟨"pages"⟩⟩,
            ⟨"monsti-example", ["monsti-example", cfgPath], some ⟨"example"⟩⟩] := by
  refine ⟨?_, ?_, ?_⟩
  · simp [startModules_started]
  · intro i
    simp [startModules_started, List.getElem?_map]
  · rw [startModules_started]
    simp only [List.nil_append, List.map_cons, List.map_nil, List.cons.injEq,
      exec.Cmd.mk.injEq, and_true, true_and]
    decide

/-! ## Form round trip -/

theorem appendInt_zero_width (n : Nat) (h : n < 100) :
    appendInt (n : Int) 0
      = if n < 10 then [digitChar n] else [digitChar (n / 10), digitChar (n % 10)] := by
  have hneg : ¬ ((n : Int) < 0) := by omega
  by_cases h10 : n < 10
  · simp [appendInt, decimalDigits, hneg, h10]
  · have e1 : n / 10 < 10 := by omega
    simp [appendInt, decimalDigits, hneg, h10, e1]

theorem getnum_printed (n : Nat) (h : n < 100) (sep : Char) (hsep : isDigit sep = false)
    (rest : List Char) :
    getnum (appendInt (n : Int) 0 ++ sep :: rest) false = some (n, sep :: rest) := by
  rw [appendInt_zero_width n h]
  by_cases h10 : n < 10
  · simp [h10, getnum, isDigit_digitChar, digitVal_digitChar, hsep]
  · have e1 : n / 10 < 10 := by omega
    have e2 : n % 10 < 10 := by omega
    have e3 : n / 10 * 10 + n % 10 = n := by omega
    simp [h10, getnum, isDigit_digitChar, digitVal_digitChar, e1, e2, e3]

theorem ParseDateClock_Format (t : Time) (hv : t.valid) (hy0 : 0 ≤ t.year)
    (hy1 : t.year ≤ 9999) :
    time.ParseDateClock (t.FormatDate ++ "T" ++ t.FormatClock)
      = some ⟨t.year, t.month, t.day, t.hour, t.minute, 0, 0, 0⟩ := by
  obtain ⟨year, month, day, hour, minute, second, nsec, offset⟩ := t
  obtain ⟨hm1, hm2, hd1, hd2, hh, hmi, _, _⟩ := hv
  simp only at hm1 hm2 hd1 hd2 hh hmi hy0 hy1
  obtain ⟨y, rfl⟩ : ∃ y : Nat, year = (y : Int) := ⟨year.toNat, by omega⟩
  have hd3 : day ≤ 31 := le_trans hd2 (daysIn_le _ _)
  have ey : ((y / 1000 * 10 + y / 100 % 10) * 10 + y / 10 % 10) * 10 + y % 10 = y := by
    omega
  have e2 : ∀ n : Nat, n / 10 * 10 + n % 10 = n := fun n => by omega
  have hm3 : ¬ (month = 0 ∨ 12 < month) := by omega
  have hh3 : ¬ (24 ≤ hour) := by omega
  have hmi3 : ¬ (60 ≤ minute) := by omega
  have hd4 : ¬ (day < 1 ∨ day > daysIn month (y : Int)) := by omega
  have gy := getYear_digits (y / 1000) (y / 100 % 10) (y / 10 % 10) (y % 10)
    (by omega) (by omega) (by omega) (by omega)
  have g2 : ∀ (n : Nat) (fixed : Bool) (rest : List Char), n < 100 →
      getnum (digitChar (n / 10) :: digitChar (n % 10) :: rest) fixed = some (n, rest) := by
    intro n fixed rest hn
    rw [getnum_digits _ _ (by omega) (by omega), e2]
  have hT : ("T" : String).data = ['T'] := rfl
  have hdot : isDigit '.' = false := by decide
  simp only [time.ParseDateClock, Time.FormatDate, Time.FormatClock, String.data_append, hT,
    List.append_assoc, List.cons_append, List.nil_append,
    getnum_printed day (by omega) '.' hdot, getnum_printed month (by omega) '.' hdot,
    appendInt_four y (by omega), appendInt_two hour (by omega),
    appendInt_two minute (by omega), gy, ey, skipByte, if_true, Option.some_bind,
    Option.bind, g2 hour false _ (by omega), g2 minute true _ (by omega),
    hm3, hh3, hmi3, hd4, if_false, ne_eq, not_true_eq_false]

/-- C12, refuted as stated: a date-time field set to 2021-05-01T10:00:30Z comes
back from the form as 2021-05-01T10:00:00Z, and an unset date-time field comes
back set to the zero time. -/
theorem form_roundtrip_counterexample :
    (Time.valid ⟨2021, 5, 1, 10, 0, 30, 0, 0⟩
      ∧ DateTimeField.FromFormField ⟨none⟩
          (DateTimeField.ToFormField id ⟨some ⟨2021, 5, 1, 10, 0, 30, 0, 0⟩⟩ [] []
            ⟨"date", "DateTime", []⟩ "en").2 ⟨"date", "DateTime", []⟩
          = .ok ⟨some ⟨2021, 5, 1, 10, 0, 0, 0, 0⟩⟩)
    ∧ DateTimeField.FromFormField ⟨none⟩
        (DateTimeField.ToFormField id ⟨none⟩ [] [] ⟨"date", "DateTime", []⟩ "en").2
        ⟨"date", "DateTime", []⟩
        = .ok ⟨some ⟨1, 1, 1, 0, 0, 0, 0, 0⟩⟩ := by
  decide

/-- C12, amended: for a text field, an HTML field, and a date-time field set to
a UTC timestamp of whole minutes with a year from 0 to 9999, `ToFormField`
followed by `FromFormField` on the data map the binder wrote gives back the
field, whatever the receiver held before. -/
theorem form_roundtrip (G : String → String) (fields : List form.Field) (data : NestedMap)
    (field : NodeField) (locale : String) (val : Time) (hv : val.valid)
    (hw : val.wholeMinuteUTC) :
    (∀ x t0 : TextField,
        t0.FromFormField (x.ToFormField G fields data field locale).2 field = .ok x)
    ∧ (∀ x t0 : HTMLField,
        t0.FromFormField (x.ToFormField G fields data field locale).2 field = .ok x)
    ∧ (∀ t0 : DateTimeField,
        t0.FromFormField
          ((DateTimeField.mk (some val)).ToFormField G fields data field locale).2 field
          = .ok ⟨some val⟩) := by
  refine ⟨?_, ?_, ?_⟩
  · intro x t0
    simp [TextField.FromFormField, TextField.ToFormField, NestedMap_Get_Set_same]
  · intro x t0
    simp [HTMLField.FromFormField, HTMLField.ToFormField, NestedMap_Get_Set_same]
  · intro t0
    obtain ⟨hy0, hy1, hs, hn, ho⟩ := hw
    have hval : val = ⟨val.year, val.month, val.day, val.hour, val.minute, 0, 0, 0⟩ := by
      obtain ⟨year, month, day, hour, minute, second, nsec, offset⟩ := val
      simp only at hs hn ho
      rw [hs, hn, ho]
    simp only [DateTimeField.FromFormField, DateTimeField.ToFormField]
    rw [NestedMap_Get_Set_other _ _ _ _ (append_suffix_ne field.Id), NestedMap_Get_Set_same,
      NestedMap_Get_Set_same]
    simp only [ParseDateClock_Format val hv hy0 hy1, Option.getD_some]
    rw [← hval]

theorem form_roundtrip_witness :
    Time.valid ⟨2021, 12, 31, 23, 59, 0, 0, 0⟩
    ∧ Time.wholeMinuteUTC ⟨2021, 12, 31, 23, 59, 0, 0, 0⟩
    ∧ (∀ x t0 : TextField,
        t0.FromFormField (x.ToFormField id [] [] ⟨"d", "DateTime", []⟩ "en").2
          ⟨"d", "DateTime", []⟩ = .ok x)
    ∧ (∀ x t0 : HTMLField,
        t0.FromFormField (x.ToFormField id [] [] ⟨"d", "DateTime", []⟩ "en").2
          ⟨"d", "DateTime", []⟩ = .ok x)
    ∧ (∀ t0 : DateTimeField,
        t0.FromFormField
          ((DateTimeField.mk (some ⟨2021, 12, 31, 23, 59, 0, 0, 0⟩)).ToFormField id [] []
            ⟨"d", "DateTime", []⟩ "en").2 ⟨"d", "DateTime", []⟩
          = .ok ⟨some ⟨2021, 12, 31, 23, 59, 0, 0, 0⟩⟩) :=
  ⟨by decide, by decide,
    form_roundtrip id [] [] ⟨"d", "DateTime", []⟩ "en" ⟨2021, 12, 31, 23, 59, 0, 0, 0⟩
      (by decide) (by decide)⟩

/-! ## Module log -/

theorem splitAfter_cons_shape (sep : Char) (p : List Char) :
    ∃ a rest, splitAfter sep p = a :: rest := by
  cases p with
  | nil => exact ⟨[], [], rfl⟩
  | cons c cs =>
    by_cases hc : c = sep
    · exact ⟨[c], splitAfter sep cs, by simp [splitAfter, hc]⟩
    · cases h : splitAfter sep cs with
      | nil => exact ⟨[c], [], by simp [splitAfter, hc, h]⟩
      | cons a rest => exact ⟨c :: a, rest, by simp [splitAfter, hc, h]⟩

theorem splitAfter_head_nonempty (sep : Char) (p q : List Char) :
    ∃ a rest, splitAfter sep (p ++ sep :: q) = a :: rest ∧ a ≠ [] := by
  induction p with
  | nil => exact ⟨[sep], splitAfter sep q, by simp [splitAfter], by simp⟩
  | cons c cs ih =>
    by_cases hc : c = sep
    · exact ⟨[c], splitAfter sep (cs ++ sep :: q), by simp [splitAfter, hc], by simp⟩
    · obtain ⟨a, rest, h, _⟩ := ih
      exact ⟨c :: a, rest, by simp [splitAfter, hc, h], by simp⟩

theorem nonempty_pieces_append (sep : Char) (p q : List Char) :
    (splitAfter sep (p ++ sep :: q)).filter (fun part => decide (part.length > 0))
      = (splitAfter sep (p ++ [sep])).filter (fun part => decide (part.length > 0))
        ++ (splitAfter sep q).filter (fun part => decide (part.length > 0)) := by
  induction p with
  | nil => simp [splitAfter]
  | cons c cs ih =>
    by_cases hc : c = sep
    · simp [splitAfter, hc, ih]
    · obtain ⟨a, as, ha, hane⟩ := splitAfter_head_nonempty sep cs q
      obtain ⟨b, bs, hb, hbne⟩ := splitAfter_head_nonempty sep cs []
      have hapos : 0 < a.length := List.length_pos.2 hane
      have hbpos : 0 < b.length := List.length_pos.2 hbne
      rw [ha, hb] at ih
      simp only [List.filter_cons, hapos, hbpos, gt_iff_lt, decide_True, if_true,
        List.cons_append, List.cons.injEq] at ih
      obtain ⟨hab, hrest⟩ := ih
      have e1 : splitAfter sep ((c :: cs) ++ sep :: q) = (c :: a) :: as := by
        rw [List.cons_append]
        simp only [splitAfter, hc, if_false, ha]
      have e2 : splitAfter sep ((c :: cs) ++ [sep]) = (c :: b) :: bs := by
        rw [List.cons_append]
        simp only [splitAfter, hc, if_false, hb]
      rw [e1, e2]
      simp only [List.filter_cons, List.length_cons, gt_iff_lt, Nat.zero_lt_succ,
        decide_True, if_true, hab, hrest, List.cons_append]

theorem entries_append (s : moduleLog) (p q : List Char)
    (h : p = [] ∨ ∃ p1, p = p1 ++ ['\n']) :
    s.entries (p ++ q) = s.entries p ++ s.entries q := by
  rcases h with h | ⟨p1, h⟩
  · subst h
    simp [moduleLog.entries, splitAfter]
  · subst h
    simp only [moduleLog.entries, List.append_assoc, List.singleton_append,
      nonempty_pieces_append '\n' p1 q, List.map_append]

theorem entries_nil (s : moduleLog) : s.entries [] = [] := by
  simp [moduleLog.entries, splitAfter]

theorem WriteAll_line_chunks (s : moduleLog) (log : List String) (chunks : List (List Char))
    (h : ∀ p ∈ chunks.dropLast, p = [] ∨ ∃ p1, p = p1 ++ ['\n']) :
    s.WriteAll log chunks = log ++ s.entries chunks.flatten := by
  induction chunks generalizing log with
  | nil => simp [moduleLog.WriteAll, entries_nil]
  | cons p rest ih =>
    cases rest with
    | nil => simp [moduleLog.WriteAll, moduleLog.Write]
    | cons r rs =>
      have hp : p = [] ∨ ∃ p1, p = p1 ++ ['\n'] := h p (by simp [List.dropLast])
      have hrest : ∀ x ∈ (r :: rs).dropLast, x = [] ∨ ∃ p1, x = p1 ++ ['\n'] :=
        fun x hx => h x (by simp [List.dropLast, hx])
      rw [moduleLog.WriteAll, ih _ hrest]
      simp only [moduleLog.Write, List.flatten_cons, entries_append s p _ hp, List.append_assoc]

theorem splitAfter_join (sep : Char) (p : List Char) : (splitAfter sep p).flatten = p := by
  induction p with
  | nil => rfl
  | cons c cs ih =>
    by_cases hc : c = sep
    · simp [splitAfter, hc, ih]
    · obtain ⟨a, rest, h⟩ := splitAfter_cons_shape sep cs
      rw [h] at ih
      simp only [List.flatten_cons] at ih
      simp [splitAfter, hc, h, ih]

/-- C15, refuted as stated: the stream `hello` plus newline written in one call
gives the one entry `pages: hello`, written as `hel` and then `lo` plus newline
it gives the two entries `pages: hel` and `pages: lo`. -/
theorem moduleLog_split_counterexample :
    moduleLog.WriteAll ⟨"pages"⟩ [] [['h', 'e', 'l', 'l', 'o', '\n']] = ["pages: hello\n"]
    ∧ moduleLog.WriteAll ⟨"pages"⟩ [] [['h', 'e', 'l'], ['l', 'o', '\n']]
        = ["pages: hel", "pages: lo\n"]
    ∧ List.flatten [['h', 'e', 'l'], ['l', 'o', '\n']] = ['h', 'e', 'l', 'l', 'o', '\n'] := by
  decide

/-- C15, amended: when every `Write` call but the last ends at a line end (its
bytes are empty or end with a newline), the logger receives the same entries as
for the whole stream written at once: one entry per non-empty piece of the
stream cut after each newline, made of the module name, `: ` and the piece; the
pieces put together are the stream; and every `Write` call reports all of its
bytes as written, with no error. -/
theorem moduleLog_forwards_lines (s : moduleLog) (log : List String)
    (chunks : List (List Char))
    (h : ∀ p ∈ chunks.dropLast, p = [] ∨ ∃ p1, p = p1 ++ ['\n']) :
    s.WriteAll log chunks
      = log ++ ((splitAfter '\n' chunks.flatten).filter
          (fun part => decide (part.length > 0))).map
            (fun part => s.Type_ ++ ": " ++ String.mk part)
    ∧ (splitAfter '\n' chunks.flatten).flatten = chunks.flatten
    ∧ (∀ (l : List String) (p : List Char), (s.Write l p).2 = (p.length, none)) := by
  exact ⟨WriteAll_line_chunks s log chunks h, splitAfter_join _ _, fun _ _ => rfl⟩

theorem moduleLog_forwards_lines_witness :
    (∀ p ∈ List.dropLast [['a', '\n', 'b', '\n'], ['c', '\n'], ['d']],
        p = [] ∨ ∃ p1, p = p1 ++ ['\n'])
    ∧ moduleLog.WriteAll ⟨"pages"⟩ [] [['a', '\n', 'b', '\n'], ['c', '\n'], ['d']]
      = [] ++ ((splitAfter '\n' (List.flatten [['a', '\n', 'b', '\n'], ['c', '\n'], ['d']])).filter
          (fun part => decide (part.length > 0))).map
            (fun part => (moduleLog.mk "pages").Type_ ++ ": " ++ String.mk part) :=
  have hw : ∀ p ∈ List.dropLast [['a', '\n', 'b', '\n'], ['c', '\n'], ['d']],
      p = [] ∨ ∃ p1, p = p1 ++ ['\n'] := by
    intro p hp
    simp only [List.dropLast, List.mem_cons, List.mem_singleton, List.not_mem_nil,
      or_false] at hp
    rcases hp with hp | hp
    · exact Or.inr ⟨['a', '\n', 'b'], by rw [hp]; rfl⟩
    · exact Or.inr ⟨['c'], by rw [hp]; rfl⟩
  ⟨hw, (moduleLog_forwards_lines ⟨"pages"⟩ [] [['a', '\n', 'b', '\n'], ['c', '\n'], ['d']]
    hw).1⟩

/-! ## Node names -/

theorem suffix_after_lastSlash (s : List Char) :
    (if lastSlash s ≥ 0 then s.drop (lastSlash s + 1).toNat else s)
      = (s.reverse.takeWhile (fun c => c != '/')).reverse := by
  have hsplit := List.takeWhile_append_dropWhile (fun c => c != '/') s.reverse
  have hs : s = (s.reverse.dropWhile (fun c => c != '/')).reverse
      ++ (s.reverse.takeWhile (fun c => c != '/')).reverse := by
    rw [← List.reverse_append, hsplit, List.reverse_reverse]
  have hlen : (s.reverse.takeWhile (fun c => c != '/')).length
      + (s.reverse.dropWhile (fun c => c != '/')).length = s.length := by
    have := congrArg List.length hsplit
    simp only [List.length_append, List.length_reverse] at this
    exact this
  by_cases h : lastSlash s ≥ 0
  · rw [if_pos h]
    have hn : (lastSlash s + 1).toNat
        = ((s.reverse.dropWhile (fun c => c != '/')).reverse).length := by
      simp only [lastSlash, List.length_reverse] at h ⊢
      omega
    rw [hn]
    have hdrop : s.drop ((s.reverse.dropWhile (fun c => c != '/')).reverse).length
        = ((s.reverse.dropWhile (fun c => c != '/')).reverse
            ++ (s.reverse.takeWhile (fun c => c != '/')).reverse).drop
              ((s.reverse.dropWhile (fun c => c != '/')).reverse).length := by
      rw [← hs]
    rw [hdrop, List.drop_left]
  · rw [if_neg h]
    have hd : s.reverse.dropWhile (fun c => c != '/') = [] := by
      apply List.eq_nil_of_length_eq_zero
      simp only [lastSlash] at h
      omega
    rw [hd] at hs
    simpa using hs

/-- The element that `path.Base` keeps: what stands between the last slash and
the trailing slashes. -/
theorem Base_eq (p : String) :
    path.Base p
      = if p = "" then "."
        else if ((p.data.reverse.dropWhile (fun c => c == '/')).takeWhile
            (fun c => c != '/')).reverse = [] then "/"
        else ⟨((p.data.reverse.dropWhile (fun c => c == '/')).takeWhile
            (fun c => c != '/')).reverse⟩ := by
  simp only [path.Base, suffix_after_lastSlash, List.reverse_reverse]

theorem last_element_unique (l x : List Char) (h : IsLastElement l x) :
    ((l.reverse.dropWhile (fun c => c == '/')).takeWhile (fun c => c != '/')).reverse = x := by
  obtain ⟨hne, hns, pre, trail, hl, htrail, hpre⟩ := h
  subst hl
  have h1 : ∀ c ∈ trail.reverse, (fun c : Char => c == '/') c = true := by
    intro c hc
    simpa using htrail c (List.mem_reverse.1 hc)
  have h2 : ∀ c ∈ x.reverse, (fun c : Char => c != '/') c = true := by
    intro c hc
    have hcx : c ∈ x := List.mem_reverse.1 hc
    have : c ≠ '/' := fun e => hns (e ▸ hcx)
    simpa using this
  have hx : x.reverse ≠ [] := by simpa using hne
  simp only [List.reverse_append, List.append_assoc]
  rw [List.dropWhile_append_of_pos h1]
  obtain ⟨c, cs, hcs⟩ := List.exists_cons_of_ne_nil hx
  have hc : (c == '/') = false := by
    have := h2 c (by rw [hcs]; simp)
    simpa using this
  rw [hcs, List.cons_append, List.dropWhile_cons]
  simp only [hc, Bool.false_eq_true, if_false]
  rw [← List.cons_append, ← hcs, List.takeWhile_append_of_pos h2]
  have hp : pre.reverse.takeWhile (fun c => c != '/') = [] := by
    rcases hpre with hpre | hpre
    · simp [hpre]
    · obtain ⟨init, hinit⟩ : ∃ init, pre = init ++ ['/'] := by
        cases hq : pre.reverse with
        | nil =>
          have : pre = [] := by simpa using hq
          simp [this] at hpre
        | cons d ds =>
          have hpd : pre = ds.reverse ++ [d] := by
            have := congrArg List.reverse hq
            simpa using this
          rw [hpd, List.getLast?_concat] at hpre
          simp only [Option.some.injEq] at hpre
          exact ⟨ds.reverse, by rw [hpd, hpre]⟩
      simp [hinit]
  simp [hp]

theorem last_element_exists (l : List Char)
    (h : ((l.reverse.dropWhile (fun c => c == '/')).takeWhile (fun c => c != '/')).reverse
      ≠ []) :
    IsLastElement l
      ((l.reverse.dropWhile (fun c => c == '/')).takeWhile (fun c => c != '/')).reverse := by
  refine ⟨h, ?_, ((l.reverse.dropWhile (fun c => c == '/')).dropWhile
      (fun c => c != '/')).reverse,
    (l.reverse.takeWhile (fun c => c == '/')).reverse, ?_, ?_, ?_⟩
  · intro hm
    have := List.mem_takeWhile_imp (List.mem_reverse.1 hm)
    simp at this
  · rw [← List.reverse_append, ← List.reverse_append, List.append_assoc,
      List.takeWhile_append_dropWhile, List.takeWhile_append_dropWhile, List.reverse_reverse]
  · intro c hc
    have := List.mem_takeWhile_imp (List.mem_reverse.1 hc)
    simpa using this
  · cases hd : (l.reverse.dropWhile (fun c => c == '/')).dropWhile (fun c => c != '/') with
    | nil => exact Or.inl rfl
    | cons d ds =>
      right
      have hnot := List.head?_dropWhile_not (fun c => c != '/')
        (l.reverse.dropWhile (fun c => c == '/'))
      rw [hd] at hnot
      simp only [List.head?_cons] at hnot
      have hdd : d = '/' := by simpa using hnot
      rw [List.reverse_cons, List.getLast?_concat, hdd]

theorem last_element_nil_iff (l : List Char) :
    ((l.reverse.dropWhile (fun c => c == '/')).takeWhile (fun c => c != '/')).reverse = []
      ↔ ∀ c ∈ l, c = '/' := by
  rw [List.reverse_eq_nil_iff]
  constructor
  · intro h
    cases hd : l.reverse.dropWhile (fun c => c == '/') with
    | nil =>
      have := List.dropWhile_eq_nil_iff.1 hd
      intro c hc
      simpa using this c (List.mem_reverse.2 hc)
    | cons d ds =>
      exfalso
      have hnot := List.head?_dropWhile_not (fun c => c == '/') l.reverse
      rw [hd] at hnot
      simp only [List.head?_cons] at hnot
      rw [hd] at h
      have hdne : (d != '/') = true := by simpa using hnot
      rw [List.takeWhile_cons] at h
      simp only [hdne, if_true] at h
      exact absurd h (by simp)
  · intro h
    have hd : l.reverse.dropWhile (fun c => c == '/') = [] := by
      apply List.dropWhile_eq_nil_iff.2
      intro c hc
      simpa using h c (List.mem_reverse.1 hc)
    rw [hd]
    rfl

theorem string_eq_iff_data (a : String) (cs : List Char) : a = ⟨cs⟩ ↔ a.data = cs := by
  constructor
  · intro h
    rw [h]
  · intro h
    exact String.ext h

/-- C20: `Name` returns the empty string exactly when the path is empty,
consists only of slashes, or has `.` as its last element; otherwise it returns
the last slash-separated element of the path, trailing slashes ignored, which
is non-empty and contains no `/`. -/
theorem Name_last_element (n : Node) :
    (n.Name = "" ↔
        n.Path = "" ∨ (∀ c ∈ n.Path.data, c = '/') ∨ IsLastElement n.Path.data ['.'])
    ∧ (n.Name ≠ "" → IsLastElement n.Path.data n.Name.data)
    ∧ (∀ (ty : Option NodeType) (order : Int) (hide : Bool) (fields : GoMap Field),
        Node.Name ⟨"/foo/bar//", ty, order, hide, fields⟩ = "bar"
        ∧ Node.Name ⟨"/foo/.", ty, order, hide, fields⟩ = ""
        ∧ Node.Name ⟨"///", ty, order, hide, fields⟩ = "") := by
  refine ⟨?_, ?_, ?_⟩
  · by_cases hp : n.Path = ""
    · simp [Node.Name, Base_eq, hp]
    · by_cases he : ((n.Path.data.reverse.dropWhile (fun c => c == '/')).takeWhile
          (fun c => c != '/')).reverse = []
      · have hall := (last_element_nil_iff n.Path.data).1 he
        have hname : n.Name = "" := by
          simp only [Node.Name, Base_eq, hp, he, if_false, if_true]
          decide
        rw [hname]
        exact ⟨fun _ => Or.inr (Or.inl hall), fun _ => rfl⟩
      · have hlast := last_element_exists n.Path.data he
        have hnall : ¬ ∀ c ∈ n.Path.data, c = '/' :=
          fun h => he ((last_element_nil_iff n.Path.data).2 h)
        have hslash : ¬ (String.mk ((n.Path.data.reverse.dropWhile
            (fun c => c == '/')).takeWhile (fun c => c != '/')).reverse = "/") := by
          intro h
          have h1 := congrArg String.data h
          simp only at h1
          have hmem : '/' ∈ ((n.Path.data.reverse.dropWhile
              (fun c => c == '/')).takeWhile (fun c => c != '/')).reverse := by
            rw [h1]
            decide
          exact hlast.2.1 hmem
        have hempty : ¬ (String.mk ((n.Path.data.reverse.dropWhile
            (fun c => c == '/')).takeWhile (fun c => c != '/')).reverse = "") := by
          intro h
          exact he (congrArg String.data h)
        by_cases hdot : ((n.Path.data.reverse.dropWhile (fun c => c == '/')).takeWhile
            (fun c => c != '/')).reverse = ['.']
        · have hname : n.Name = "" := by
            simp only [Node.Name, Base_eq, hp, he, if_false, hdot]
            decide
          have hl : IsLastElement n.Path.data ['.'] := by
            rw [← hdot]
            exact hlast
          simp [hname, hl]
        · have hdot2 : ¬ (String.mk ((n.Path.data.reverse.dropWhile
              (fun c => c == '/')).takeWhile (fun c => c != '/')).reverse = ".") := by
            intro h
            exact hdot (congrArg String.data h)
          have hname : n.Name = String.mk ((n.Path.data.reverse.dropWhile
              (fun c => c == '/')).takeWhile (fun c => c != '/')).reverse := by
            simp only [Node.Name, Base_eq, hp, he, if_false, hdot2, hslash, or_self]
          have hl : ¬ IsLastElement n.Path.data ['.'] :=
            fun h => hdot (last_element_unique _ _ h)
          simp [hname, hempty, hp, hnall, hl]
  · intro hne
    by_cases hp : n.Path = ""
    · exact absurd (by simp [Node.Name, Base_eq, hp]) hne
    · by_cases he : ((n.Path.data.reverse.dropWhile (fun c => c == '/')).takeWhile
          (fun c => c != '/')).reverse = []
      · exfalso
        apply hne
        simp only [Node.Name, Base_eq, hp, he, if_false, if_true]
        decide
      · have hlast := last_element_exists n.Path.data he
        have hname : n.Name = String.mk ((n.Path.data.reverse.dropWhile
            (fun c => c == '/')).takeWhile (fun c => c != '/')).reverse := by
          simp only [Node.Name, Base_eq, hp, he, if_false] at hne ⊢
          split_ifs with h
          · rw [if_pos h] at hne
            exact absurd rfl hne
          · rfl
        rw [hname]
        exact hlast
  · intro ty order hide fields
    have hpath : ∀ p : String,
        Node.Name ⟨p, ty, order, hide, fields⟩ = Node.Name ⟨p, none, 0, false, []⟩ :=
      fun _ => rfl
    rw [hpath, hpath, hpath]
    decide

end Monsti
